import Mathlib

/-!
Verification development for the gioppler in-process instrumentation library.

Shallow embedding of the data model and operations of the C++ sources:
  - `src/include/gioppler/record.hpp`   (RecordValue, Record)
  - `src/include/gioppler/sink.hpp`     (SinkManager, Json sink)
  - `src/include/gioppler/utility.hpp`  (resolve_directory, create_filename)
  - `src/include/gioppler/contract.hpp` (argument, expect)
  - `src/unnamed/part_002`              (LinuxEvent, LinuxEventsData)
  - `src/include/gioppler/histogram.hpp` (Bucket, Histogram)

Machine integers are modelled as `Nat` with explicit reductions modulo the
relevant power of two at the points where the C++ code truncates (bit-field
writes, unsigned wraparound).  Fallible operations return `Option`.
-/

namespace Gioppler

/-! ### Record and RecordValue (record.hpp) -/

/-- C++ `Timestamp` (`std::chrono::system_clock::time_point`) modelled as
nanoseconds since the epoch. -/
abbrev Timestamp := Nat

/-- `RecordValue::Type` from record.hpp: the five value kinds. -/
inductive RVType where
  | bool
  | int
  | real
  | string
  | timestamp
deriving DecidableEq, Repr

/-- `RecordValue` from record.hpp.  The C++ class is NOT a union: it stores a
tag plus one member per alternative, each value-initialized (`{}`).  The C++
`double` member is modelled by its exact rational value; the library only
stores and retrieves it, so no floating-point arithmetic is involved. -/
structure RecordValue where
  record_value_type : RVType
  bool_value : Bool
  int_value : Int
  real_value : Rat
  string_value : String
  timestamp_value : Timestamp
deriving DecidableEq, Repr

/-- Constructor `RecordValue(bool)`: remaining members are value-initialized. -/
def RecordValue.ofBool (b : Bool) : RecordValue := ⟨RVType.bool, b, 0, 0, "", 0⟩

/-- Constructor `RecordValue(int64_t)` (also used for `uint32_t`). -/
def RecordValue.ofInt (i : Int) : RecordValue := ⟨RVType.int, false, i, 0, "", 0⟩

/-- Constructor `RecordValue(double)`. -/
def RecordValue.ofReal (r : Rat) : RecordValue := ⟨RVType.real, false, 0, r, "", 0⟩

/-- Constructor `RecordValue(std::string)` / `RecordValue(std::string_view)`. -/
def RecordValue.ofString (s : String) : RecordValue := ⟨RVType.string, false, 0, 0, s, 0⟩

/-- Constructor `RecordValue(Timestamp)`. -/
def RecordValue.ofTimestamp (t : Timestamp) : RecordValue := ⟨RVType.timestamp, false, 0, 0, "", t⟩

/-- `RecordValue::get_type`. -/
def RecordValue.get_type (v : RecordValue) : RVType := v.record_value_type

/-- `RecordValue::get_bool`.  The accessor is guarded by
`assert(_record_value_type == Type::Bool)`; a mismatched access fires the
assertion instead of returning a value, modelled as `none`. -/
def RecordValue.get_bool (v : RecordValue) : Option Bool :=
  if v.record_value_type = RVType.bool then some v.bool_value else none

/-- `RecordValue::get_int`, guarded by an assertion on the tag. -/
def RecordValue.get_int (v : RecordValue) : Option Int :=
  if v.record_value_type = RVType.int then some v.int_value else none

/-- `RecordValue::get_real`, guarded by an assertion on the tag. -/
def RecordValue.get_real (v : RecordValue) : Option Rat :=
  if v.record_value_type = RVType.real then some v.real_value else none

/-- `RecordValue::get_string`, guarded by an assertion on the tag. -/
def RecordValue.get_string (v : RecordValue) : Option String :=
  if v.record_value_type = RVType.string then some v.string_value else none

/-- `RecordValue::get_timestamp`, guarded by an assertion on the tag. -/
def RecordValue.get_timestamp (v : RecordValue) : Option Timestamp :=
  if v.record_value_type = RVType.timestamp then some v.timestamp_value else none

/-- `Record` from record.hpp is `std::unordered_map<std::string, RecordValue>`.
We model the map by its key/value sequence in container iteration order.
Iteration order of `std::unordered_map` is hash/bucket dependent and is NOT
the insertion order. -/
abbrev Record := List (String × RecordValue)

/-- Key lookup in a `Record` (`unordered_map` keys are unique; lookup finds
the unique entry, modelled as the first match). -/
def Record.lookup (r : Record) (key : String) : Option RecordValue :=
  match r.find? (fun kv => kv.fst = key) with
  | some kv => some kv.snd
  | none => none

/-- `std::unordered_map::merge`: entries of `src` whose keys are not already
present in `dst` are inserted; colliding keys stay with `dst`. -/
def Record.merge (dst src : Record) : Record :=
  dst ++ src.filter (fun kv => (Record.lookup dst kv.fst).isNone)

/-! ### Newline-delimited JSON sink (sink.hpp, `Json::write_record`) -/

/-- `std::format` of a C++ `bool` with format `\x7b\x7d`: the literals
`true` / `false`. -/
def boolLit (b : Bool) : String := if b then "true" else "false"

/-- `std::format` of an `int64_t` with format `\x7b\x7d`: decimal digits with
optional leading minus sign, matching `toString` on `Int`. -/
def intLit (i : Int) : String := toString i

/-- One field of `Json::write_record` (sink.hpp lines 162-189): the switch on
`value.get_type()` followed by the matching accessor.  The format calls place
the key in double quotes, then a colon, then the value; string and timestamp
values are additionally placed in double quotes.  No JSON escaping of any kind
is applied to keys or string values.  Formatting of `double` values
(`std::format`) and of timestamps (`format_timestamp`, timezone dependent) is
delegated to the external library and is taken as a parameter. -/
def jsonField (realFmt : Rat → String) (tsFmt : Timestamp → String)
    (key : String) (v : RecordValue) : Option String :=
  match v.get_type with
  | RVType.bool => (v.get_bool).map (fun b => "\"" ++ key ++ "\":" ++ boolLit b)
  | RVType.int => (v.get_int).map (fun i => "\"" ++ key ++ "\":" ++ intLit i)
  | RVType.real => (v.get_real).map (fun r => "\"" ++ key ++ "\":" ++ realFmt r)
  | RVType.string => (v.get_string).map (fun s => "\"" ++ key ++ "\":\"" ++ s ++ "\"")
  | RVType.timestamp =>
      (v.get_timestamp).map (fun t => "\"" ++ key ++ "\":\"" ++ tsFmt t ++ "\"")

/-- The comma-separated concatenation of the fields, in container iteration
order (the `first_field` flag in the C++ loop). -/
def jsonFields (realFmt : Rat → String) (tsFmt : Timestamp → String) :
    Record → Option String
  | [] => some ""
  | [kv] => jsonField realFmt tsFmt kv.fst kv.snd
  | kv :: rest => do
      let f ← jsonField realFmt tsFmt kv.fst kv.snd
      let r ← jsonFields realFmt tsFmt rest
      pure (f ++ "," ++ r)

/-- `Json::write_record` (sink.hpp lines 147-194): the record is never
filtered (`is_record_filtered` returns `false`), the fields are written
comma-separated, and the buffer is written to the stream exactly as built:
the code writes NO opening or closing braces and NO newline terminator. -/
def Json.write_record (realFmt : Rat → String) (tsFmt : Timestamp → String)
    (record : Record) : Option String :=
  jsonFields realFmt tsFmt record

/-! ### A spec-conformant JSON parser (www.json.org grammar)

Used to check the sink output.  A JSON text is a single JSON value with
optional surrounding whitespace and nothing else.  Numbers are recognized per
the grammar and kept as their lexeme; `\u` escapes outside the surrogate
range decode to the corresponding code point. -/

/-- Parsed JSON values. -/
inductive JsonValue where
  | null
  | bool (b : Bool)
  | num (lexeme : String)
  | str (s : String)
  | arr (elements : List JsonValue)
  | obj (members : List (String × JsonValue))

/-- JSON whitespace: space, linefeed, carriage return, horizontal tab. -/
def jsonSkipWs : List Char → List Char
  | c :: rest =>
      if c = ' ' ∨ c = '\n' ∨ c = '\r' ∨ c = '\t' then jsonSkipWs rest else c :: rest
  | [] => []

/-- Hex digit value. -/
def hexVal (c : Char) : Option Nat :=
  if '0' ≤ c ∧ c ≤ '9' then some (c.toNat - '0'.toNat)
  else if 'a' ≤ c ∧ c ≤ 'f' then some (c.toNat - 'a'.toNat + 10)
  else if 'A' ≤ c ∧ c ≤ 'F' then some (c.toNat - 'A'.toNat + 10)
  else none

/-- JSON string body, after the opening quote.  Control characters are not
allowed unescaped; the two-character escapes and `\uXXXX` (non-surrogate)
are decoded. -/
def jsonStringBody : List Char → Option (String × List Char)
  | [] => none
  | '"' :: rest => some ("", rest)
  | '\\' :: 'u' :: h1 :: h2 :: h3 :: h4 :: rest => do
      let d1 ← hexVal h1
      let d2 ← hexVal h2
      let d3 ← hexVal h3
      let d4 ← hexVal h4
      let n := ((d1 * 16 + d2) * 16 + d3) * 16 + d4
      if 0xD800 ≤ n ∧ n ≤ 0xDFFF then none
      else do
        let (s, r) ← jsonStringBody rest
        pure (String.singleton (Char.ofNat n) ++ s, r)
  | '\\' :: e :: rest => do
      let c ← match e with
        | '"' => some '"'
        | '\\' => some '\\'
        | '/' => some '/'
        | 'b' => some (Char.ofNat 8)
        | 'f' => some (Char.ofNat 12)
        | 'n' => some '\n'
        | 'r' => some '\r'
        | 't' => some '\t'
        | _ => none
      let (s, r) ← jsonStringBody rest
      pure (String.singleton c ++ s, r)
  | c :: rest =>
      if c.toNat < 0x20 then none
      else do
        let (s, r) ← jsonStringBody rest
        pure (String.singleton c ++ s, r)

/-- Longest prefix of decimal digits. -/
def takeDigits : List Char → (List Char × List Char)
  | [] => ([], [])
  | c :: rest =>
      if '0' ≤ c ∧ c ≤ '9' then
        let (ds, r) := takeDigits rest
        (c :: ds, r)
      else ([], c :: rest)

/-- JSON number, starting at a digit or minus sign: integer part (no leading
zeros), optional fraction, optional exponent.  The lexeme is returned. -/
def jsonNumber (cs : List Char) : Option (String × List Char) := do
  let (sign, cs1) := match cs with
    | '-' :: rest => (['-'], rest)
    | _ => (([] : List Char), cs)
  let (intPart, cs2) ← match cs1 with
    | '0' :: rest => some (['0'], rest)
    | c :: _ =>
        if '1' ≤ c ∧ c ≤ '9' then
          let (ds, r) := takeDigits cs1
          some (ds, r)
        else none
    | [] => none
  let (fracPart, cs3) ← match cs2 with
    | '.' :: rest =>
        let (ds, r) := takeDigits rest
        if ds = [] then none else some ('.' :: ds, r)
    | _ => some (([] : List Char), cs2)
  let (expPart, cs4) ← match cs3 with
    | 'e' :: rest | 'E' :: rest =>
        let (sgn, rest2) := match rest with
          | '+' :: r => (['+'], r)
          | '-' :: r => (['-'], r)
          | _ => (([] : List Char), rest)
        let (ds, r) := takeDigits rest2
        if ds = [] then none else some ('e' :: sgn ++ ds, r)
    | _ => some (([] : List Char), cs3)
  pure (String.mk (sign ++ intPart ++ fracPart ++ expPart), cs4)

mutual

/-- JSON value parser with fuel (the fuel bounds the nesting depth). -/
def jsonParseValue : Nat → List Char → Option (JsonValue × List Char)
  | 0, _ => none
  | fuel + 1, cs =>
      match jsonSkipWs cs with
      | 't' :: 'r' :: 'u' :: 'e' :: rest => some (JsonValue.bool true, rest)
      | 'f' :: 'a' :: 'l' :: 's' :: 'e' :: rest => some (JsonValue.bool false, rest)
      | 'n' :: 'u' :: 'l' :: 'l' :: rest => some (JsonValue.null, rest)
      | '"' :: rest => (jsonStringBody rest).map (fun sr => (JsonValue.str sr.fst, sr.snd))
      | '\x7b' :: rest => jsonParseMembers fuel rest true []
      | '[' :: rest => jsonParseElements fuel rest true []
      | cs1 => (jsonNumber cs1).map (fun sr => (JsonValue.num sr.fst, sr.snd))

/-- Object members: `first` is true when no member has been parsed yet
(allowing the immediate closing brace of an empty object). -/
def jsonParseMembers (fuel : Nat) (cs : List Char) (first : Bool)
    (acc : List (String × JsonValue)) : Option (JsonValue × List Char) :=
  match fuel, jsonSkipWs cs with
  | _, '\x7d' :: rest =>
      if first then some (JsonValue.obj acc.reverse, rest) else none
  | fuel + 1, cs1 => do
      let cs2 ← match jsonSkipWs cs1 with
        | '"' :: r => some r
        | _ => none
      let (key, cs3) ← jsonStringBody cs2
      let cs4 ← match jsonSkipWs cs3 with
        | ':' :: r => some r
        | _ => none
      let (v, cs5) ← jsonParseValue fuel cs4
      match jsonSkipWs cs5 with
      | ',' :: rest => jsonParseMembers fuel rest false ((key, v) :: acc)
      | '\x7d' :: rest => some (JsonValue.obj (((key, v) :: acc)).reverse, rest)
      | _ => none
  | 0, _ => none

/-- Array elements. -/
def jsonParseElements (fuel : Nat) (cs : List Char) (first : Bool)
    (acc : List JsonValue) : Option (JsonValue × List Char) :=
  match fuel, jsonSkipWs cs with
  | _, ']' :: rest =>
      if first then some (JsonValue.arr acc.reverse, rest) else none
  | fuel + 1, cs1 => do
      let (v, cs2) ← jsonParseValue fuel cs1
      match jsonSkipWs cs2 with
      | ',' :: rest => jsonParseElements fuel rest false (v :: acc)
      | ']' :: rest => some (JsonValue.arr ((v :: acc)).reverse, rest)
      | _ => none
  | 0, _ => none

end

/-- Parse a complete JSON text: one value, optional surrounding whitespace,
and nothing after it. -/
def jsonParse (s : String) : Option JsonValue :=
  match jsonParseValue (s.length + 1) s.data with
  | some (v, rest) => if jsonSkipWs rest = [] then some v else none
  | none => none

/-! ### Sink setup (utility.hpp and sink.hpp)

`get_output_filepath` builds the sink destination: special stream tokens, or
a directory resolved by `resolve_directory` joined with a filename built by
`create_filename`.  `create_filename` calls `format` (`std::vformat`) on the
template `\x7b\x7d-\x7b\x7d-\x7b\x7d\x7b\x7d\x7b\x7d\x7d`, whose final
character is an unescaped closing brace; we embed the `std::format`
replacement-field rules for the subset the library uses (empty replacement
fields `\x7b\x7d` and the doubled-brace escapes): a lone closing brace makes
the format string invalid and `std::vformat` raises `std::format_error`,
modelled as `none`. -/

/-- The base directory selected by `resolve_directory` (utility.hpp lines
130-152): the token prefix picks the temp, home, or current directory; an
empty string picks the current directory; anything else is used as given. -/
inductive BaseDir where
  | temp
  | home
  | current
  | asIs
deriving DecidableEq, Repr

/-- `std::string_view::starts_with`. -/
def string_starts_with (s pre : String) : Bool := pre.data.isPrefixOf s.data

/-- The branch structure of `resolve_directory` on the directory argument. -/
def resolve_directory_base (directory : String) : BaseDir :=
  if string_starts_with directory ("<temp>") then BaseDir.temp
  else if string_starts_with directory ("<home>") then BaseDir.home
  else if string_starts_with directory ("<current>") then BaseDir.current
  else if directory = "" then BaseDir.current
  else BaseDir.asIs

/-- `std::vformat` restricted to the subset used by the library: literal
characters, doubled-brace escapes, and empty replacement fields `\x7b\x7d`
consuming one argument each.  Unbalanced braces or missing arguments raise
`std::format_error` (`none`).  Surplus arguments are permitted, as in
`std::format`. -/
def applyFormat : List Char → List String → Option String
  | [], _ => some ""
  | '\x7b' :: '\x7b' :: rest, args => (applyFormat rest args).map (fun s => "\x7b" ++ s)
  | '\x7d' :: '\x7d' :: rest, args => (applyFormat rest args).map (fun s => "\x7d" ++ s)
  | '\x7b' :: '\x7d' :: rest, arg :: args => (applyFormat rest args).map (fun s => arg ++ s)
  | '\x7b' :: '\x7d' :: _, [] => none
  | '\x7b' :: _, _ => none
  | '\x7d' :: _, _ => none
  | c :: rest, args => (applyFormat rest args).map (fun s => String.singleton c ++ s)

/-- The format template of `create_filename` (utility.hpp line 165),
verbatim: five empty replacement fields and a trailing unescaped closing
brace. -/
def create_filename_template : String := "\x7b\x7d-\x7b\x7d-\x7b\x7d\x7b\x7d\x7b\x7d\x7d"

/-- `create_filename` (utility.hpp lines 156-167): the salt is drawn modulo
10000, the extension dot is inserted unless the extension is empty or already
starts with a dot, and the name is built by `format` on the template above. -/
def create_filename (program_name : String) (process_id : Nat) (salt : Nat)
    (extension : String) : Option String :=
  let extension_dot := if extension ≠ "" ∧ extension.front ≠ '.' then "." else ""
  applyFormat create_filename_template.data
    [program_name, toString process_id, toString (salt % 10000), extension_dot, extension]

/-- A sink output destination: one of the three standard streams, or a file
given by a base directory and a filename. -/
inductive OutputDest where
  | stream (name : String)
  | file (base : BaseDir) (filename : String)
deriving DecidableEq, Repr

/-- `get_output_filepath` (utility.hpp lines 177-193): the three stream
tokens are matched exactly; otherwise the directory is resolved and the
filename generated.  `none` models the `std::format_error` escaping from
`create_filename`. -/
def get_output_filepath (directory extension program_name : String)
    (process_id salt : Nat) : Option OutputDest :=
  if directory = "<cerr>" then some (OutputDest.stream ("cerr"))
  else if directory = "<cout>" then some (OutputDest.stream ("cout"))
  else if directory = "<clog>" then some (OutputDest.stream ("clog"))
  else
    match create_filename program_name process_id salt extension with
    | some fn => some (OutputDest.file (resolve_directory_base directory) fn)
    | none => none

/-- The default path argument of `Json::add_sink` (sink.hpp line 142). -/
def json_add_sink_default_path : String := "<current>"

/-- Constructing the default `Json` sink (sink.hpp lines 132-134 via line
307): the constructor calls `get_output_filepath(path, "json")`. -/
def json_default_sink (program_name : String) (process_id salt : Nat) :
    Option OutputDest :=
  get_output_filepath json_add_sink_default_path ("json") program_name process_id salt

/-- `SinkManager` state relevant to default-sink creation: the registered
sink destinations and the `std::once_flag` (true once `check_create_sinks`
has returned normally; `std::call_once` does NOT set the flag when the
callable exits by exception). -/
structure SinkManager where
  sinks : List OutputDest
  once_done : Bool
deriving DecidableEq, Repr

/-- `SinkManager::check_create_sinks` (sink.hpp lines 305-310): when no sink
is registered, `Json::add_sink()` is invoked; an exception from the sink
constructor propagates (`none`). -/
def check_create_sinks (sinks : List OutputDest) (program_name : String)
    (process_id salt : Nat) : Option (List OutputDest) :=
  if sinks.isEmpty then
    (json_default_sink program_name process_id salt).map (fun d => sinks ++ [d])
  else some sinks

/-- The sink-creation part of `SinkManager::write_record` (sink.hpp lines
91-98): `std::call_once` runs `check_create_sinks` unless it has already
completed; `none` models the exception escaping to the caller, in which case
the once-flag remains unset. -/
def SinkManager.write_record_sinks (m : SinkManager) (program_name : String)
    (process_id salt : Nat) : Option SinkManager :=
  if m.once_done then some m
  else
    (check_create_sinks m.sinks program_name process_id salt).map
      (fun s => ⟨s, true⟩)

/-! ### Contract checks (contract.hpp) -/

/-- `BuildMode` (the build-mode set of the library; spec name `production`
corresponds to source `production` in the gioppler.hpp draft of part_004 and
`release` in include/gioppler/gioppler.hpp). -/
inductive BuildMode where
  | off
  | development
  | test
  | profile
  | qa
  | production
deriving DecidableEq, Repr

/-- `std::source_location`. -/
structure SourceLocation where
  file_name : String
  line : Nat
  column : Nat
  function_name : String
deriving DecidableEq, Repr

/-- `format_source_location` (utility.hpp lines 69-78): the format call
`\x7b\x7d(\x7b\x7d:\x7b\x7d): \x7b\x7d` written out as concatenation. -/
def format_source_location (loc : SourceLocation) : String :=
  loc.file_name ++ "(" ++ toString loc.line ++ ":" ++ toString loc.column ++ "): "
    ++ loc.function_name

/-- `source_location_to_record` (record.hpp lines 205-213).  `line` and
`column` are `uint32_t`, taken by the integer `RecordValue` constructor. -/
def source_location_to_record (loc : SourceLocation) : Record :=
  [("file", RecordValue.ofString loc.file_name),
   ("line", RecordValue.ofInt loc.line),
   ("column", RecordValue.ofInt loc.column),
   ("function", RecordValue.ofString loc.function_name)]

/-- Outcome of a contract check: either the condition held, or a violation
record was submitted to the sink pipeline and `contract_violation` was
thrown. -/
inductive ContractOutcome where
  | ok
  | raised (record : Record)
deriving DecidableEq, Repr

/-- Whether the outcome raised `contract_violation`. -/
def ContractOutcome.isRaised : ContractOutcome → Bool
  | ContractOutcome.ok => false
  | ContractOutcome.raised _ => true

/-- The violation record submitted by a failed check: the initializer list
`category`/`subcategory`/`message` merged with the source-location record. -/
def contract_record (subcategory message : String) (loc : SourceLocation) :
    Record :=
  Record.merge
    [("category", RecordValue.ofString ("contract")),
     ("subcategory", RecordValue.ofString subcategory),
     ("message", RecordValue.ofString message)]
    (source_location_to_record loc)

/-- `gioppler::contract::expect` (contract.hpp lines 94-111): on a false
condition it always writes the record and throws `contract_violation`; the
function does not consult the build mode. -/
def contract_expect (condition : Bool) (loc : SourceLocation) : ContractOutcome :=
  if condition then ContractOutcome.ok
  else
    ContractOutcome.raised
      (contract_record ("expect")
        ("ERROR: " ++ format_source_location loc ++ ": expect condition failed\n") loc)

/-- `gioppler::contract::argument` (contract.hpp lines 71-88): same shape as
`expect` with subcategory `argument`. -/
def contract_argument (condition : Bool) (loc : SourceLocation) : ContractOutcome :=
  if condition then ContractOutcome.ok
  else
    ContractOutcome.raised
      (contract_record ("argument")
        ("ERROR: " ++ format_source_location loc ++ ": invalid argument\n") loc)

/-! ### Linux performance counters (src/unnamed/part_002) -/

/-- `uint64_t` wraparound subtraction (`a -= b` on unsigned 64-bit fields):
for `a, b < 2^64` the machine result is `(2^64 + a - b) mod 2^64`. -/
def sub64 (a b : Nat) : Nat := (2 ^ 64 + a - b) % 2 ^ 64

/-- `LinuxEventsData` (part_002 lines 227-354): one `uint64_t` per tracked
counter.  Field names follow the source with the leading underscore
dropped. -/
structure LinuxEventsData where
  fd_sw_cpu_clock : Nat
  fd_sw_task_clock : Nat
  fd_sw_page_faults : Nat
  fd_sw_context_switches : Nat
  fd_sw_cpu_migrations : Nat
  fd_sw_page_faults_min : Nat
  fd_sw_page_faults_maj : Nat
  fd_sw_alignment_faults : Nat
  fd_sw_emulation_faults : Nat
  fd_hw_cpu_cycles : Nat
  fd_hw_instructions : Nat
  fd_hw_stalled_cycles_frontend : Nat
  fd_hw_stalled_cycles_backend : Nat
  fd_hw_cache_references : Nat
  fd_hw_cache_misses : Nat
  fd_hw_branch_instructions : Nat
  fd_hw_branch_misses : Nat
deriving DecidableEq, Repr

/-- `LinuxEventsData::operator-=` / `operator-` (part_002 lines 275-299):
plain componentwise `uint64_t` subtraction on every field; there is no
underflow check, no error result, and no unavailability marking. -/
def LinuxEventsData.sub (l r : LinuxEventsData) : LinuxEventsData :=
  ⟨sub64 l.fd_sw_cpu_clock r.fd_sw_cpu_clock,
   sub64 l.fd_sw_task_clock r.fd_sw_task_clock,
   sub64 l.fd_sw_page_faults r.fd_sw_page_faults,
   sub64 l.fd_sw_context_switches r.fd_sw_context_switches,
   sub64 l.fd_sw_cpu_migrations r.fd_sw_cpu_migrations,
   sub64 l.fd_sw_page_faults_min r.fd_sw_page_faults_min,
   sub64 l.fd_sw_page_faults_maj r.fd_sw_page_faults_maj,
   sub64 l.fd_sw_alignment_faults r.fd_sw_alignment_faults,
   sub64 l.fd_sw_emulation_faults r.fd_sw_emulation_faults,
   sub64 l.fd_hw_cpu_cycles r.fd_hw_cpu_cycles,
   sub64 l.fd_hw_instructions r.fd_hw_instructions,
   sub64 l.fd_hw_stalled_cycles_frontend r.fd_hw_stalled_cycles_frontend,
   sub64 l.fd_hw_stalled_cycles_backend r.fd_hw_stalled_cycles_backend,
   sub64 l.fd_hw_cache_references r.fd_hw_cache_references,
   sub64 l.fd_hw_cache_misses r.fd_hw_cache_misses,
   sub64 l.fd_hw_branch_instructions r.fd_hw_branch_instructions,
   sub64 l.fd_hw_branch_misses r.fd_hw_branch_misses⟩

/-- The all-zero `LinuxEventsData` (the value-initialized `data\x7b\x7d` of
`get_snapshot`). -/
def LinuxEventsData.zero : LinuxEventsData :=
  ⟨0, 0, 0, 0, 0, 0, 0, 0, 0, 0, 0, 0, 0, 0, 0, 0, 0⟩

/-- The fate of the process after a `LinuxEvent` helper runs: still running
with a result, or terminated by `std::exit`. -/
inductive ProcessFate where
  | running (value : Int)
  | exited (code : Nat)
deriving DecidableEq, Repr

/-- `EXIT_FAILURE`. -/
def EXIT_FAILURE : Nat := 1

/-- `LinuxEvent::open_event` (part_002 lines 157-176) as a function of the
`perf_event_open` syscall result: on `-1` the code prints to `std::cerr` and
calls `std::exit(EXIT_FAILURE)`; otherwise the descriptor is returned. -/
def open_event (perf_event_open_result : Int) : ProcessFate :=
  if perf_event_open_result = -1 then ProcessFate.exited EXIT_FAILURE
  else ProcessFate.running perf_event_open_result

/-- The shared shape of `reset_event`, `disable_event`, `enable_event` and
`close_event` (part_002 lines 178-208) as a function of the `ioctl`/`close`
status: on `-1` the code prints and calls `std::exit(EXIT_FAILURE)`. -/
def ioctl_event (status : Int) : ProcessFate :=
  if status = -1 then ProcessFate.exited EXIT_FAILURE
  else ProcessFate.running status

/-- The error check of `LinuxEvent::read_event` (part_002 lines 214-218) as
a function of the `read` syscall result: `-1` prints and calls
`std::exit(EXIT_FAILURE)`. -/
def read_event_bytes (bytes_read : Int) : ProcessFate :=
  if bytes_read = -1 then ProcessFate.exited EXIT_FAILURE
  else ProcessFate.running bytes_read

/-- Outcome of the four-event `LinuxEvent` constructor (part_002 lines
82-97): either all four opens and the trailing group reset succeed and the
object holds the four descriptors, or the process exited. -/
inductive CtorOutcome where
  | constructed (fd1 fd2 fd3 fd4 : Int)
  | exited (code : Nat)
deriving DecidableEq, Repr

/-- The four-event `LinuxEvent` constructor as a function of the four
`perf_event_open` results and the reset `ioctl` status: the opens run in
order, each checked by `open_event`, then `reset_event` runs on the leader. -/
def linux_event_ctor4 (r1 r2 r3 r4 reset_status : Int) : CtorOutcome :=
  match open_event r1 with
  | ProcessFate.exited c => CtorOutcome.exited c
  | ProcessFate.running fd1 =>
    match open_event r2 with
    | ProcessFate.exited c => CtorOutcome.exited c
    | ProcessFate.running fd2 =>
      match open_event r3 with
      | ProcessFate.exited c => CtorOutcome.exited c
      | ProcessFate.running fd3 =>
        match open_event r4 with
        | ProcessFate.exited c => CtorOutcome.exited c
        | ProcessFate.running fd4 =>
          match ioctl_event reset_status with
          | ProcessFate.exited c => CtorOutcome.exited c
          | ProcessFate.running _ => CtorOutcome.constructed fd1 fd2 fd3 fd4

/-- Division as performed by IEEE doubles, tracking whether a zero divisor
was used: `none` when the divisor is zero (IEEE yields an infinity or NaN,
and the subsequent cast to `uint64_t` of a non-finite value is undefined);
otherwise the exact quotient.  Over the values reaching these divisions
(64-bit integers and their quotients) the double rounding does not affect
zero-ness of the divisor, which is all the claims below depend on. -/
def qdiv (a b : Rat) : Option Rat := if b = 0 then none else some (a / b)

/-- The scaling computation of `LinuxEvent::read_event` (part_002 lines
212-223) as a function of the values read from the kernel:
`active_pct = time_running / time_enabled`, then
`scaled = value * (1.0 / active_pct)` truncated to `uint64_t`.
The scaling is applied unconditionally on every read; there is no ratio
comparison and no availability flag. -/
def read_event_scaled (value time_enabled time_running : Nat) : Option Nat := do
  let active_pct ← qdiv (time_running) (time_enabled)
  let inv ← qdiv 1 active_pct
  pure (Int.toNat ⌊(value : Rat) * inv⌋)

/-! ### Histogram (histogram.hpp)

`Bucket` stores `observation_min` as a full `uint64_t`, `observation_span`
in a 40-bit bit-field and `count` in a 24-bit bit-field.  Bit-field writes
truncate: span writes reduce modulo `2^40` and count writes modulo `2^24`
(the only count writes are the constructors and the `+=` accumulation).
`Histogram::_observations` is a `uint32_t` incremented once per observation,
reduced modulo `2^32` at the write. -/

/-- 24-bit bucket count modulus. -/
def W24 : Nat := 2 ^ 24

/-- 40-bit bucket span modulus. -/
def W40 : Nat := 2 ^ 40

/-- 64-bit modulus. -/
def W64 : Nat := 2 ^ 64

/-- `Histogram::max_buckets`. -/
def max_buckets : Nat := 256

/-- `Bucket` (histogram.hpp lines 59-140). -/
structure Bucket where
  observation_min : Nat
  observation_span : Nat
  count : Nat
deriving DecidableEq, Repr

/-- `Bucket(observation)`: a single-observation bucket. -/
def Bucket.single (observation : Nat) : Bucket := ⟨observation, 0, 1⟩

/-- `Bucket::get_min`. -/
def Bucket.get_min (b : Bucket) : Nat := b.observation_min

/-- `Bucket::get_max`: `_observation_min + _observation_span` in `uint64_t`
arithmetic. -/
def Bucket.get_max (b : Bucket) : Nat := (b.observation_min + b.observation_span) % W64

/-- `Bucket::get_count` (the 24-bit field read). -/
def Bucket.get_count (b : Bucket) : Nat := b.count

/-- `Bucket::operator+=` (histogram.hpp lines 74-84): the merged bucket
covers both ranges and accumulates the counts; the span write truncates to
40 bits and the count write to 24 bits. -/
def Bucket.merge (l r : Bucket) : Bucket :=
  let mn := min l.get_min r.get_min
  let mx := max l.get_max r.get_max
  ⟨mn, (mx - mn) % W40, (l.count + r.count) % W24⟩

/-- `Bucket::is_overlapping` (histogram.hpp lines 99-101):
`get_min() <= b.get_max() && get_max() >= b.get_min()`. -/
def Bucket.is_overlapping (a b : Bucket) : Prop :=
  a.get_min ≤ b.get_max ∧ b.get_min ≤ a.get_max

instance (a b : Bucket) : Decidable (Bucket.is_overlapping a b) := by
  unfold Bucket.is_overlapping
  infer_instance

/-- `Bucket::contains_rank`: `rank >= 1 && rank <= _count`. -/
def Bucket.contains_rank (b : Bucket) (rank : Nat) : Prop :=
  1 ≤ rank ∧ rank ≤ b.count

instance (b : Bucket) (rank : Nat) : Decidable (Bucket.contains_rank b rank) := by
  unfold Bucket.contains_rank
  infer_instance

/-- `Bucket::get_rank` (histogram.hpp lines 109-118): for a single
observation the minimum; otherwise linear interpolation
`_observation_min + (rank-1)*_observation_span/(_count-1)` computed in
unsigned integer arithmetic (truncating division), the sum reduced as
`uint64_t`.  The `double` return converts these integers exactly in the
ranges used here (below `2^53`). -/
def Bucket.get_rank (b : Bucket) (rank : Nat) : Nat :=
  if b.count = 1 then b.observation_min
  else (b.observation_min + (rank - 1) * b.observation_span / (b.count - 1)) % W64

/-- `Histogram::round_div` for `uint32_t`:
`(dividend + divisor/2) / divisor` with the addition wrapping at `2^32`. -/
def round_div32 (dividend divisor : Nat) : Nat :=
  ((dividend + divisor / 2) % 2 ^ 32) / divisor

/-- `Histogram::round_div` for `uint64_t`. -/
def round_div64 (dividend divisor : Nat) : Nat :=
  ((dividend + divisor / 2) % W64) / divisor

/-- `Histogram` (histogram.hpp lines 158-501): the observation counter, the
`_compacted` flag, and the bucket vector. -/
structure Histogram where
  observations : Nat
  compacted : Bool
  buckets : List Bucket
deriving DecidableEq, Repr

/-- A fresh histogram. -/
def Histogram.empty : Histogram := ⟨0, true, []⟩

/-- Insertion step of the bucket sort: `std::ranges::sort` with comparator
`l.get_min() < r.get_min()`. -/
def insert_by_min (b : Bucket) : List Bucket → List Bucket
  | [] => [b]
  | c :: rest =>
      if b.get_min < c.get_min then b :: c :: rest else c :: insert_by_min b rest

/-- The bucket sort by minimum.  `std::ranges::sort` is unstable, so the
relative order of equal keys is unspecified in C++; this model fixes a
stable order.  Wherever the development relies on the order of equal-key
buckets (the all-equal-observation traces below), every such bucket is
merged into a single bucket whose contents do not depend on that order. -/
def sort_by_min : List Bucket → List Bucket
  | [] => []
  | b :: rest => insert_by_min b (sort_by_min rest)

/-- The merge sweep of `compact_buckets` (histogram.hpp lines 427-437):
`last` plays the role of `p_last`.  The current bucket is merged into the
previous one when the previous has fewer than `target` observations or the
two ranges overlap; otherwise the previous bucket is emitted and the current
bucket becomes the new `p_last`. -/
def sweep (target : Nat) (last : Bucket) : List Bucket → List Bucket
  | [] => [last]
  | b :: rest =>
      if last.get_count < target ∨ Bucket.is_overlapping b last then
        sweep target (Bucket.merge last b) rest
      else last :: sweep target b rest

/-- `Histogram::compact_buckets` (histogram.hpp lines 417-442): a no-op when
already compacted; otherwise sort by minimum, compute
`target_bucket_size = 1 + round_div(_observations, max_buckets)`, sweep, and
set the flag. -/
def Histogram.compact (h : Histogram) : Histogram :=
  if h.compacted then h
  else
    let target := 1 + round_div32 h.observations max_buckets
    let merged :=
      match sort_by_min h.buckets with
      | [] => []
      | b :: rest => sweep target b rest
    ⟨h.observations, true, merged⟩

/-- `Histogram::add_observation` (histogram.hpp lines 168-179): append a
single-observation bucket, increment the `uint32_t` counter, clear the flag;
compact when the bucket count has reached `max_buckets`. -/
def Histogram.add_observation (h : Histogram) (observation : Nat) : Histogram :=
  let h1 : Histogram :=
    ⟨(h.observations + 1) % 2 ^ 32, false, h.buckets ++ [Bucket.single observation]⟩
  if max_buckets ≤ h1.buckets.length then h1.compact else h1

/-- The rank walk of `get_by_rank` (histogram.hpp lines 194-202): find the
bucket containing the running rank, subtracting each passed bucket's count.
Falling off the end is `assert(false)` — undefined behavior — modelled as
`none`. -/
def walk_rank : List Bucket → Nat → Option Nat
  | [], _ => none
  | b :: rest, delta =>
      if b.contains_rank delta then some (b.get_rank delta)
      else walk_rank rest (delta - b.get_count)

/-- `Histogram::get_by_rank` (histogram.hpp lines 186-203): zero when there
are no observations; otherwise compact, clamp the rank to
`[1, _observations]`, and walk. -/
def Histogram.get_by_rank (h : Histogram) (rank : Nat) : Option Nat :=
  if h.observations = 0 then some 0
  else
    let hc := h.compact
    walk_rank hc.buckets (min (max rank 1) hc.observations)

/-- `Histogram::get_trimedian` (histogram.hpp lines 209-229). -/
def Histogram.get_trimedian (h : Histogram) : Option Nat :=
  let hc := h.compact
  if hc.observations < 4 then
    if hc.observations = 0 then some 0
    else if hc.observations ≤ 2 then hc.get_by_rank 1
    else hc.get_by_rank 2
  else
    let q1_rank := round_div32 hc.observations 4
    let q2_rank := round_div32 hc.observations 2
    let q3_rank := q1_rank + q2_rank
    match hc.get_by_rank q1_rank, hc.get_by_rank q2_rank, hc.get_by_rank q3_rank with
    | some q1_obs, some q2_obs, some q3_obs =>
        some (round_div64 ((q1_obs + 2 * q2_obs + q3_obs) % W64) 4)
    | _, _, _ => none

/-- The bucket-count sum of `Histogram::invariant` (histogram.hpp lines
392-401), accumulated in `uint64_t` (no wrap is possible: at most
`2^32 + 1` buckets of count below `2^24` ever arise transiently). -/
def Histogram.sum_counts (h : Histogram) : Nat :=
  (h.buckets.map Bucket.get_count).sum

/-- `Histogram::invariant`: the bucket counts sum to the observation counter
and the bucket vector is within `max_buckets`. -/
def Histogram.invariant (h : Histogram) : Prop :=
  h.sum_counts = h.observations ∧ h.buckets.length ≤ max_buckets

instance (h : Histogram) : Decidable (Histogram.invariant h) := by
  unfold Histogram.invariant
  infer_instance

/-- Adding the same observation `n` times in sequence (first add applied
first). -/
def add_same (v : Nat) : Nat → Histogram → Histogram
  | 0, h => h
  | n + 1, h => add_same v n (h.add_observation v)

/-- Adding a list of observations in order. -/
def add_all (h : Histogram) (observations : List Nat) : Histogram :=
  observations.foldl Histogram.add_observation h

/-- The trimean computation as described by the (amended) spec wording:
counts 1, 2, 3 use ranks 1, 1, 2 respectively; four or more observations use
ranks `round(n/4)`, `round(n/2)` and their sum, combined by the rounding
division `(Q1 + 2*Q2 + Q3 + 2) / 4`.  Written from the spec sentence, to be
compared with `Histogram.get_trimedian` (written from the source). -/
def trimean_spec_amended (h : Histogram) : Option Nat :=
  let hc := h.compact
  if hc.observations = 0 then some 0
  else if hc.observations = 1 ∨ hc.observations = 2 then hc.get_by_rank 1
  else if hc.observations = 3 then hc.get_by_rank 2
  else
    let q1_rank := round_div32 hc.observations 4
    let q2_rank := round_div32 hc.observations 2
    match hc.get_by_rank q1_rank, hc.get_by_rank q2_rank,
        hc.get_by_rank (q1_rank + q2_rank) with
    | some q1_obs, some q2_obs, some q3_obs =>
        some (round_div64 ((q1_obs + 2 * q2_obs + q3_obs) % W64) 4)
    | _, _, _ => none

/-- A histogram holding the two observations 10 and 20. -/
def hist_two : Histogram := add_all Histogram.empty [10, 20]

/-- A reachable 256-bucket pre-compaction state: 255 disjoint buckets of 130
equal observations each, plus one single-observation bucket beyond them.
Reached from a fresh histogram by adding 130 copies of `1000*j` for
`j = 0..254` in order, then one observation `255000` (33151 adds in total;
the final add triggers the compaction whose result is evaluated below). -/
def station_buckets : List Bucket :=
  (List.range 255).map (fun j => ⟨1000 * j, 0, 130⟩) ++ [⟨255000, 0, 1⟩]

/-- The histogram state holding `station_buckets` right as `compact_buckets`
begins (the `_compacted` flag is false, `_observations` is 33151). -/
def station_hist : Histogram := ⟨33151, false, station_buckets⟩

/-- A concrete source location (test scenario 4 of the spec uses file `x.c`,
line 42). -/
def loc0 : SourceLocation := ⟨"x.c", 42, 1, "f"⟩

/-- Counter snapshot A: all counters read 0. -/
def snapA : LinuxEventsData := LinuxEventsData.zero

/-- Counter snapshot B, observed after A: the cpu-clock counter advanced to
1, all others still 0. -/
def snapB : LinuxEventsData :=
  ⟨1, 0, 0, 0, 0, 0, 0, 0, 0, 0, 0, 0, 0, 0, 0, 0, 0⟩

/-! ### Grouped bucket lists

Infrastructure for reasoning about compaction runs whose input consists of
runs ("groups") of buckets sharing a minimum, as arise from the
station-shaped observation traces used for C8. -/

/-- Total observation count of a bucket group. -/
def groupTotal (g : List Bucket) : Nat := (g.map Bucket.count).sum

/-- Flatten a list of (station value, bucket group) pairs. -/
def flatGroups (gs : List (Nat × List Bucket)) : List Bucket := gs.flatMap Prod.snd

/-- Reverse each group. -/
def reverseGroups (gs : List (Nat × List Bucket)) : List (Nat × List Bucket) :=
  gs.map (fun p => (p.fst, p.snd.reverse))

/-- One consolidated bucket per group. -/
def consolidateGroups (gs : List (Nat × List Bucket)) : List Bucket :=
  gs.map (fun p => (⟨p.fst, 0, groupTotal p.snd⟩ : Bucket))

/-- Well-formed group sequence for a compaction run: each group is a
nonempty run of buckets sharing the group's minimum with zero span; group
values are strictly increasing; group totals fit the 24-bit count field; and
every group but the last holds at least `target` observations. -/
def groupsOk (target : Nat) : List (Nat × List Bucket) → Prop
  | [] => True
  | (v, g) :: rest =>
      v < W64 ∧ g ≠ [] ∧ (∀ b ∈ g, b.observation_min = v ∧ b.observation_span = 0) ∧
      groupTotal g < W24 ∧
      (match rest with
       | [] => True
       | (v2, _) :: _ => v < v2 ∧ target ≤ groupTotal g) ∧
      groupsOk target rest

/-! ### The station trace

The concrete observation trace that reaches the C8 pre-compaction state
`station_hist`, together with the closed forms of the histogram states it
passes through. -/

/-- The station observation trace: 130 copies of `1000*j` for each station
`j = 0..254` in order, then a single observation `255000` — position `p`
carries the value `1000 * (p / 130)`. -/
def station_obs : List Nat := (List.range 33151).map (fun p => 1000 * (p / 130))

/-- Number of stations touched by the first `m` positions of the trace. -/
def stationsTouched (m : Nat) : Nat := (m + 129) / 130

/-- Observations of station `i` among the first `m` positions. -/
def stationCount (i m : Nat) : Nat := min 130 (m - 130 * i)

/-- The consolidated per-station buckets after a compaction at position `m`. -/
def consolidatedBuckets (m : Nat) : List Bucket :=
  (List.range (stationsTouched m)).map (fun i => ⟨1000 * i, 0, stationCount i m⟩)

/-- The singleton buckets appended between positions `mc` and `m`. -/
def singlesSeg (mc m : Nat) : List Bucket :=
  (List.range (m - mc)).map (fun q => Bucket.single (1000 * ((mc + q) / 130)))

/-- The singles of station `i` appended between positions `mc` and `m`. -/
def stationSingles (mc m i : Nat) : List Bucket :=
  List.replicate (stationCount i m - stationCount i mc) (Bucket.single (1000 * i))

/-- The bucket group of station `i` at a compaction at `m`, with previous
compaction at `mc`. -/
def stationGroup (mc m i : Nat) : List Bucket :=
  (if 0 < stationCount i mc then [(⟨1000 * i, 0, stationCount i mc⟩ : Bucket)] else [])
    ++ stationSingles mc m i

/-- The station groups of the compaction at `m` with previous compaction at
`mc`. -/
def stationGroups (mc m : Nat) : List (Nat × List Bucket) :=
  (List.range (stationsTouched m)).map (fun i => (1000 * i, stationGroup mc m i))

/-- The sequence of compaction points of the station trace. -/
def compPoint : Nat → Nat
  | 0 => 0
  | i + 1 => compPoint i + (256 - stationsTouched (compPoint i))

/-! ## Theorems -/

/-- C10: every typed accessor of `RecordValue` is guarded by a tag assertion;
for a `RecordValue` built from any of the five kinds, the matching accessor
returns exactly the stored value and `get_type` returns the corresponding
tag, while every mismatched accessor trips its assertion (`none`) instead of
silently returning another alternative's bits. -/
theorem c10_accessors :
    ∀ (b : Bool) (i : Int) (r : Rat) (s : String) (t : Timestamp),
      ((RecordValue.ofBool b).get_type = RVType.bool ∧
        (RecordValue.ofBool b).get_bool = some b ∧
        (RecordValue.ofBool b).get_int = none ∧
        (RecordValue.ofBool b).get_real = none ∧
        (RecordValue.ofBool b).get_string = none ∧
        (RecordValue.ofBool b).get_timestamp = none) ∧
      ((RecordValue.ofInt i).get_type = RVType.int ∧
        (RecordValue.ofInt i).get_int = some i ∧
        (RecordValue.ofInt i).get_bool = none ∧
        (RecordValue.ofInt i).get_real = none ∧
        (RecordValue.ofInt i).get_string = none ∧
        (RecordValue.ofInt i).get_timestamp = none) ∧
      ((RecordValue.ofReal r).get_type = RVType.real ∧
        (RecordValue.ofReal r).get_real = some r ∧
        (RecordValue.ofReal r).get_bool = none ∧
        (RecordValue.ofReal r).get_int = none ∧
        (RecordValue.ofReal r).get_string = none ∧
        (RecordValue.ofReal r).get_timestamp = none) ∧
      ((RecordValue.ofString s).get_type = RVType.string ∧
        (RecordValue.ofString s).get_string = some s ∧
        (RecordValue.ofString s).get_bool = none ∧
        (RecordValue.ofString s).get_int = none ∧
        (RecordValue.ofString s).get_real = none ∧
        (RecordValue.ofString s).get_timestamp = none) ∧
      ((RecordValue.ofTimestamp t).get_type = RVType.timestamp ∧
        (RecordValue.ofTimestamp t).get_timestamp = some t ∧
        (RecordValue.ofTimestamp t).get_bool = none ∧
        (RecordValue.ofTimestamp t).get_int = none ∧
        (RecordValue.ofTimestamp t).get_real = none ∧
        (RecordValue.ofTimestamp t).get_string = none) := by
  intro b i r s t
  exact ⟨⟨rfl, rfl, rfl, rfl, rfl, rfl⟩, ⟨rfl, rfl, rfl, rfl, rfl, rfl⟩,
    ⟨rfl, rfl, rfl, rfl, rfl, rfl⟩, ⟨rfl, rfl, rfl, rfl, rfl, rfl⟩,
    ⟨rfl, rfl, rfl, rfl, rfl, rfl⟩⟩

/-- C1: evaluation of `Json::write_record` at the record containing the
single boolean entry `a = true`: the sink emits exactly `"a":true` — no
enclosing object braces and no newline — and a spec-conformant JSON parser
rejects the emitted line (the claim asserts the output parses back to an
equivalent insertion-ordered object). -/
theorem c1_code_evaluation :
    Json.write_record (fun _ => "") (fun _ => "")
        [("a", RecordValue.ofBool true)] = some ("\"a\":true") ∧
      jsonParse ("\"a\":true") = none := by
  exact ⟨rfl, rfl⟩

/-- C4 counterexample: `expect(false)` raises `contract_violation`
unconditionally — the contract functions never consult the build mode, so in
production mode a violation does NOT merely record and continue as the claim
states. -/
theorem c4_counterexample :
    ContractOutcome.isRaised (contract_expect false loc0) = true ∧
      contract_expect false loc0 ≠ ContractOutcome.ok := by
  exact ⟨rfl, by simp [contract_expect, loc0]⟩

/-- C4 amended: in EVERY build mode (the checks do not read the mode), a
true condition passes, and a false condition submits a record with category
`contract`, the check-kind subcategory, and the source location, then raises
`contract_violation`. -/
theorem c4_amended :
    ∀ (_mode : BuildMode) (loc : SourceLocation) (sub msg : String),
      contract_expect true loc = ContractOutcome.ok ∧
      contract_argument true loc = ContractOutcome.ok ∧
      ContractOutcome.isRaised (contract_expect false loc) = true ∧
      ContractOutcome.isRaised (contract_argument false loc) = true ∧
      contract_expect false loc =
        ContractOutcome.raised
          (contract_record ("expect")
            ("ERROR: " ++ format_source_location loc ++ ": expect condition failed\n")
            loc) ∧
      Record.lookup (contract_record sub msg loc) ("category") =
        some (RecordValue.ofString ("contract")) ∧
      Record.lookup (contract_record sub msg loc) ("subcategory") =
        some (RecordValue.ofString sub) ∧
      Record.lookup (contract_record sub msg loc) ("message") =
        some (RecordValue.ofString msg) ∧
      Record.lookup (contract_record sub msg loc) ("file") =
        some (RecordValue.ofString loc.file_name) ∧
      Record.lookup (contract_record sub msg loc) ("line") =
        some (RecordValue.ofInt loc.line) ∧
      Record.lookup (contract_record sub msg loc) ("function") =
        some (RecordValue.ofString loc.function_name) := by
  intro _mode loc sub msg
  refine ⟨rfl, rfl, rfl, rfl, rfl, ?_, ?_, ?_, ?_, ?_, ?_⟩ <;>
    simp [Record.lookup, Record.merge, contract_record, source_location_to_record]

/-- C2 counterexample: subtracting the later snapshot B (cpu clock 1) from
the earlier snapshot A (all zero) does not produce an error result with the
field marked unavailable — it wraps: the delta is an ordinary snapshot whose
cpu-clock field is `2^64 - 1`. -/
theorem c2_counterexample :
    LinuxEventsData.sub snapA snapB =
      ⟨2 ^ 64 - 1, 0, 0, 0, 0, 0, 0, 0, 0, 0, 0, 0, 0, 0, 0, 0, 0⟩ := by
  decide

/-- C2 amended: snapshot subtraction is plain componentwise `uint64_t`
subtraction.  When the subtrahend field does not exceed the minuend field the
difference is exact; otherwise the result wraps to `2^64` minus the
shortfall.  No error result is produced and no field is marked
unavailable. -/
theorem c2_amended :
    (∀ l r : LinuxEventsData,
      (LinuxEventsData.sub l r).fd_sw_cpu_clock =
        sub64 l.fd_sw_cpu_clock r.fd_sw_cpu_clock) ∧
    ∀ a b : Nat, a < 2 ^ 64 → b < 2 ^ 64 →
      (b ≤ a → sub64 a b = a - b) ∧ (a < b → sub64 a b = 2 ^ 64 - (b - a)) := by
  refine ⟨fun l r => rfl, fun a b ha hb => ⟨fun h => ?_, fun h => ?_⟩⟩ <;>
    · unfold sub64
      omega

/-- C2 amended, witnessed at A − B for the concrete snapshots above:
`sub64 0 1` wraps to `2^64 - 1`. -/
theorem c2_amended_witness : sub64 0 1 = 2 ^ 64 - 1 := by
  have h := (c2_amended.2 0 1 (by norm_num) (by norm_num)).2 (by norm_num)
  simpa using h

/-- C3 counterexample: a kernel error on `perf_event_open` (result `-1`)
terminates the whole process via `std::exit(EXIT_FAILURE)` — the
PlatformCounter does not degrade to a no-op provider and the calling
process does not keep running; errors on `ioctl` and `read` likewise
exit. -/
theorem c3_counterexample :
    open_event (-1) = ProcessFate.exited EXIT_FAILURE ∧
      ioctl_event (-1) = ProcessFate.exited EXIT_FAILURE ∧
      read_event_bytes (-1) = ProcessFate.exited EXIT_FAILURE ∧
      open_event (-1) ≠ ProcessFate.running (-1) := by
  refine ⟨rfl, rfl, rfl, by simp [open_event]⟩

/-- C3 amended: in the grouped-event constructor, any failing
`perf_event_open` or the failing group-reset `ioctl` terminates the process
with `EXIT_FAILURE`; only when every call succeeds is the event object
constructed (holding the four descriptors). -/
theorem c3_amended :
    ∀ r1 r2 r3 r4 rs : Int,
      ((r1 = -1 ∨ r2 = -1 ∨ r3 = -1 ∨ r4 = -1 ∨ rs = -1) →
        linux_event_ctor4 r1 r2 r3 r4 rs = CtorOutcome.exited EXIT_FAILURE) ∧
      (r1 ≠ -1 → r2 ≠ -1 → r3 ≠ -1 → r4 ≠ -1 → rs ≠ -1 →
        linux_event_ctor4 r1 r2 r3 r4 rs = CtorOutcome.constructed r1 r2 r3 r4) := by
  intro r1 r2 r3 r4 rs
  constructor
  · intro h
    by_cases h1 : r1 = -1 <;> by_cases h2 : r2 = -1 <;> by_cases h3 : r3 = -1 <;>
      by_cases h4 : r4 = -1 <;> by_cases h5 : rs = -1 <;>
      simp_all [linux_event_ctor4, open_event, ioctl_event]
  · intro h1 h2 h3 h4 h5
    simp [linux_event_ctor4, open_event, ioctl_event, h1, h2, h3, h4, h5]

/-- C3 amended, witnessed: a failed leader open exits the process, and a
fully successful sequence constructs the object. -/
theorem c3_amended_witness :
    linux_event_ctor4 (-1) 5 6 7 0 = CtorOutcome.exited EXIT_FAILURE ∧
      linux_event_ctor4 3 4 5 6 0 = CtorOutcome.constructed 3 4 5 6 := by
  exact ⟨(c3_amended (-1) 5 6 7 0).1 (Or.inl rfl),
    (c3_amended 3 4 5 6 0).2 (by norm_num) (by norm_num) (by norm_num) (by norm_num)
      (by norm_num)⟩

/-- C5 counterexample: a read with `time_running = 0` does not return the
defined scaled value 0 with a `counter_unavailable` flag — the scaling
executes `1.0 / active_pct` with a zero divisor (modelled `none`; IEEE
produces an infinity whose `uint64_t` cast is undefined), and no
availability flag exists in the code. -/
theorem c5_counterexample :
    read_event_scaled 5 1000 0 = none ∧ read_event_scaled 5 1000 0 ≠ some 0 := by
  have h : read_event_scaled 5 1000 0 = none := by
    simp [read_event_scaled, qdiv]
  exact ⟨h, by simp [h]⟩

/-- C5 amended: the scaling is applied unconditionally on every read (there
is no ratio-below-one test): whenever both times are nonzero the returned
counter is `value * time_enabled / time_running` truncated to an integer;
whenever `time_running` (or `time_enabled`) is zero, the computation divides
by zero. -/
theorem c5_amended :
    ∀ value time_enabled time_running : Nat,
      time_enabled ≠ 0 → time_running ≠ 0 →
      read_event_scaled value time_enabled time_running =
        some (Int.toNat ⌊(value : Rat) * time_enabled / time_running⌋) := by
  intro v e r he hr
  have he' : (e : Rat) ≠ 0 := by exact_mod_cast he
  have hr' : (r : Rat) ≠ 0 := by exact_mod_cast hr
  have hq : ((r : Rat) / e) ≠ 0 := div_ne_zero hr' he'
  simp [read_event_scaled, qdiv, he, hr, hq, inv_div, mul_div_assoc]

/-- C5 amended, witnessed at a multiplexed read (`enabled = 3000`,
`running = 1000`): the raw counter 6 scales to 18. -/
theorem c5_amended_witness :
    read_event_scaled 6 3000 1000 =
      some (Int.toNat ⌊(6 : Rat) * 3000 / 1000⌋) := by
  exact c5_amended 6 3000 1000 (by norm_num) (by norm_num)

/-- C6 counterexample: the first submission on a manager with no registered
sinks does not install a default sink writing under the temp directory: the
default path token of `Json::add_sink` is `<current>` (the current working
directory), and the attempt aborts with a format error (`none`) because the
filename template ends in an unescaped closing brace, so no sink at all is
installed. -/
theorem c6_counterexample :
    SinkManager.write_record_sinks ⟨[], false⟩ ("testprog") 1234 42 = none ∧
      resolve_directory_base json_add_sink_default_path = BaseDir.current ∧
      resolve_directory_base json_add_sink_default_path ≠ BaseDir.temp := by
  refine ⟨rfl, by decide, by decide⟩

/-- C6 amended: on the first submission with no sinks registered the manager
attempts to install exactly one default newline-delimited JSON sink whose
configured directory token is `<current>` (current working directory, not
the temp directory); the filename template is malformed, so the attempt
raises a format error, installs nothing and leaves the once-flag unset.
With sinks already registered nothing is installed, and once the flag is set
the sink list is never touched again. -/
theorem c6_amended :
    ∀ (program : String) (pid salt : Nat) (m : SinkManager),
      (create_filename program pid salt ("json") = none) ∧
      (json_default_sink program pid salt = none) ∧
      (m.sinks = [] → m.once_done = false →
        SinkManager.write_record_sinks m program pid salt = none) ∧
      (m.sinks ≠ [] → m.once_done = false →
        SinkManager.write_record_sinks m program pid salt = some ⟨m.sinks, true⟩) ∧
      (m.once_done = true →
        SinkManager.write_record_sinks m program pid salt = some m) := by
  intro program pid salt m
  have hcf : create_filename program pid salt ("json") = none := rfl
  have hjd : json_default_sink program pid salt = none := by
    simp [json_default_sink, get_output_filepath, json_add_sink_default_path, hcf]
  refine ⟨hcf, hjd, fun hs hf => ?_, fun hs hf => ?_, fun hf => ?_⟩
  · simp [SinkManager.write_record_sinks, hf, check_create_sinks, hs, hjd]
  · simp [SinkManager.write_record_sinks, hf, check_create_sinks, hs]
  · simp [SinkManager.write_record_sinks, hf]

/-- C6 amended, witnessed: the failing default installation on an empty
manager, and the untouched sink list of a manager that already has a
stream sink. -/
theorem c6_amended_witness :
    SinkManager.write_record_sinks ⟨[], false⟩ ("p") 1 2 = none ∧
      SinkManager.write_record_sinks ⟨[OutputDest.stream ("cout")], false⟩ ("p") 1 2 =
        some ⟨[OutputDest.stream ("cout")], true⟩ := by
  exact ⟨(c6_amended "p" 1 2 ⟨[], false⟩).2.2.1 rfl rfl,
    (c6_amended "p" 1 2 ⟨[OutputDest.stream ("cout")], false⟩).2.2.2.1 (by simp) rfl⟩

set_option maxRecDepth 8000 in
/-- C9 counterexample: for the histogram holding the two observations 10 and
20, `get_trimedian` returns the value at rank 1 (10), not the value at rank
2 (20) as the claim states for two observations. -/
theorem c9_counterexample :
    Histogram.get_trimedian hist_two = some 10 ∧
      Histogram.get_by_rank hist_two 2 = some 20 ∧
      Histogram.get_trimedian hist_two ≠ Histogram.get_by_rank hist_two 2 := by
  refine ⟨by decide, by decide, by decide⟩

/-- C9 amended: the trimean of a histogram holding 1, 2, or 3 observations
is the value at rank 1, 1, and 2 respectively; with four or more
observations it is the rounding division `(Q1 + 2*Q2 + Q3 + 2) / 4` over the
values at ranks `round(n/4)`, `round(n/2)` and their sum. -/
theorem c9_amended :
    ∀ h : Histogram, Histogram.get_trimedian h = trimean_spec_amended h := by
  intro h
  unfold Histogram.get_trimedian trimean_spec_amended
  by_cases h0 : (h.compact).observations = 0
  · simp [h0]
  · by_cases h1 : (h.compact).observations = 1
    · simp [h1]
    · by_cases h2 : (h.compact).observations = 2
      · simp [h2]
      · by_cases h3 : (h.compact).observations = 3
        · simp [h3]
        · have h4 : ¬ (h.compact).observations < 4 := by omega
          simp [h0, h1, h2, h3, h4, show ¬ (h.compact).observations ≤ 2 by omega]

/-! ### C7: evaluation of the histogram at 2^24 identical observations

Adding the same observation 2^24 times merges everything into one bucket
whose 24-bit count bit-field wraps to 0, falsifying the code's own
`invariant()`.  The state evolution is regular — after the first compaction
the histogram is a single bucket plus up to 254 pending singletons — and is
derived below by induction over 255-add cycles. -/

theorem add_same_out (v : Nat) (m : Nat) :
    ∀ h : Histogram, add_same v m (h.add_observation v) =
      (add_same v m h).add_observation v := by
  induction m with
  | zero => intro h; rfl
  | succ p ih => intro h; exact ih (h.add_observation v)

theorem add_same_add (v m n : Nat) : ∀ h : Histogram,
    add_same v (m + n) h = add_same v n (add_same v m h) := by
  induction n with
  | zero => intro h; rfl
  | succ p ih =>
      intro h
      calc add_same v ((m + p) + 1) h
          = add_same v (m + p) (h.add_observation v) := rfl
        _ = add_same v p (add_same v m (h.add_observation v)) :=
              ih (h.add_observation v)
        _ = add_same v p ((add_same v m h).add_observation v) := by
              rw [add_same_out]
        _ = add_same v (p + 1) (add_same v m h) := rfl

theorem sweep_cons_merge {target : Nat} {last b : Bucket} {rest : List Bucket}
    (h : last.get_count < target ∨ Bucket.is_overlapping b last) :
    sweep target last (b :: rest) = sweep target (Bucket.merge last b) rest := by
  simp [sweep, h]

theorem single_seven_min : (Bucket.single 7).observation_min = 7 := rfl

theorem single_seven_span : (Bucket.single 7).observation_span = 0 := rfl

theorem seven_get_max (c : Nat) : Bucket.get_max ⟨7, 0, c⟩ = 7 := by
  simp [Bucket.get_max, W64]

theorem merge_seven (c : Nat) (b : Bucket) (h7 : b.observation_min = 7)
    (h0 : b.observation_span = 0) :
    Bucket.merge ⟨7, 0, c⟩ b = ⟨7, 0, (c + b.count) % W24⟩ := by
  cases b with
  | mk bmin bspan bcount =>
      simp only at h7 h0
      subst h7
      subst h0
      simp [Bucket.merge, Bucket.get_min, Bucket.get_max, seven_get_max, W64, W40]

theorem overlap_seven (c : Nat) (b : Bucket) (h7 : b.observation_min = 7)
    (h0 : b.observation_span = 0) : Bucket.is_overlapping b ⟨7, 0, c⟩ := by
  constructor
  · rw [seven_get_max]
    simp [Bucket.get_min, h7]
  · simp [Bucket.get_min, Bucket.get_max, h7, h0, W64]

theorem sweep_all_overlap (target : Nat) :
    ∀ (l : List Bucket) (c : Nat),
      (∀ b ∈ l, b.observation_min = 7 ∧ b.observation_span = 0) →
      sweep target ⟨7, 0, c⟩ l =
        [⟨7, 0, List.foldl (fun a b => (a + b.count) % W24) c l⟩] := by
  intro l
  induction l with
  | nil => intro c _; rfl
  | cons b rest ih =>
      intro c hmem
      obtain ⟨h7, h0⟩ := hmem b (List.mem_cons_self b rest)
      rw [sweep_cons_merge (Or.inr (overlap_seven c b h7 h0))]
      rw [merge_seven c b h7 h0]
      rw [ih ((c + b.count) % W24) (fun x hx => hmem x (List.mem_cons_of_mem b hx))]
      rfl

theorem foldl_count_replicate :
    ∀ (t c : Nat), c < W24 →
      List.foldl (fun a b => (a + b.count) % W24) c
          (List.replicate t (Bucket.single 7)) = (c + t) % W24 := by
  intro t
  induction t with
  | zero => intro c hc; simpa using (Nat.mod_eq_of_lt hc).symm
  | succ p ih =>
      intro c hc
      rw [List.replicate_succ, List.foldl_cons]
      have h1 : (c + (Bucket.single 7).count) % W24 = (c + 1) % W24 := rfl
      rw [h1, ih ((c + 1) % W24) (Nat.mod_lt _ (by norm_num [W24]))]
      rw [Nat.mod_add_mod]
      congr 1
      omega

theorem insert_by_min_seven (b : Bucket) (hb : b.observation_min = 7) :
    ∀ t : Nat, insert_by_min b (List.replicate t (Bucket.single 7)) =
      List.replicate t (Bucket.single 7) ++ [b] := by
  intro t
  induction t with
  | zero => rfl
  | succ p ih =>
      rw [List.replicate_succ, insert_by_min]
      have hlt : ¬ (b.get_min < (Bucket.single 7).get_min) := by
        simp [Bucket.get_min, hb, Bucket.single]
      rw [if_neg hlt, ih]
      rfl

theorem sort_by_min_replicate :
    ∀ t : Nat, sort_by_min (List.replicate t (Bucket.single 7)) =
      List.replicate t (Bucket.single 7) := by
  intro t
  induction t with
  | zero => rfl
  | succ p ih =>
      rw [List.replicate_succ, sort_by_min, ih, insert_by_min_seven _ rfl]
      exact (List.replicate_succ' p (Bucket.single 7)).symm

theorem sort_big_singles (c : Nat) :
    sort_by_min (⟨7, 0, c⟩ :: List.replicate 255 (Bucket.single 7)) =
      List.replicate 255 (Bucket.single 7) ++ [⟨7, 0, c⟩] := by
  rw [sort_by_min, sort_by_min_replicate, insert_by_min_seven _ rfl]

theorem compact_big_state (n c : Nat) :
    Histogram.compact ⟨n, false, ⟨7, 0, c⟩ :: List.replicate 255 (Bucket.single 7)⟩ =
      ⟨n, true, [⟨7, 0, (c + 255) % W24⟩]⟩ := by
  rw [Histogram.compact]
  rw [if_neg (show ¬ ((⟨n, false, ⟨7, 0, c⟩ ::
      List.replicate 255 (Bucket.single 7)⟩ : Histogram).compacted = true) from by
    simp)]
  simp only [sort_big_singles]
  rw [show List.replicate 255 (Bucket.single 7) ++ [(⟨7, 0, c⟩ : Bucket)] =
      Bucket.single 7 :: (List.replicate 254 (Bucket.single 7) ++ [⟨7, 0, c⟩]) from by
    rw [List.replicate_succ, List.cons_append]]
  have hmem : ∀ b ∈ List.replicate 254 (Bucket.single 7) ++ [(⟨7, 0, c⟩ : Bucket)],
      b.observation_min = 7 ∧ b.observation_span = 0 := by
    intro b hb
    rcases List.mem_append.1 hb with hrep | hone
    · rw [List.eq_of_mem_replicate hrep]; exact ⟨rfl, rfl⟩
    · rw [List.mem_singleton.1 hone]; exact ⟨rfl, rfl⟩
  show (⟨n, true,
      sweep (1 + round_div32 n max_buckets) (⟨7, 0, 1⟩ : Bucket)
        (List.replicate 254 (Bucket.single 7) ++ [(⟨7, 0, c⟩ : Bucket)])⟩ :
    Histogram) = _
  rw [sweep_all_overlap _ _ 1 hmem]
  rw [List.foldl_append]
  rw [foldl_count_replicate 254 1 (by norm_num [W24])]
  have h255 : (1 + 254) % W24 = 255 := by norm_num [W24]
  rw [h255]
  simp only [List.foldl_cons, List.foldl_nil]
  rw [Nat.add_comm 255 c]

theorem add_observation_no_compact (h : Histogram) (v : Nat)
    (hlen : h.buckets.length + 1 < max_buckets) (hobs : h.observations + 1 < 2 ^ 32) :
    h.add_observation v =
      ⟨h.observations + 1, false, h.buckets ++ [Bucket.single v]⟩ := by
  unfold Histogram.add_observation
  rw [if_neg (by simp; omega)]
  rw [Nat.mod_eq_of_lt hobs]

theorem add_same_singles :
    ∀ t : Nat, t ≤ 255 →
      add_same 7 t Histogram.empty =
        ⟨t, (if t = 0 then true else false), List.replicate t (Bucket.single 7)⟩ := by
  intro t
  induction t with
  | zero => intro _; rfl
  | succ p ih =>
      intro hle
      have hsplit : p + 1 = p + 1 := rfl
      rw [show add_same 7 (p + 1) Histogram.empty
          = add_same 7 1 (add_same 7 p Histogram.empty) from add_same_add 7 p 1 _]
      rw [ih (by omega)]
      show Histogram.add_observation
        ⟨p, (if p = 0 then true else false), List.replicate p (Bucket.single 7)⟩ 7 = _
      rw [add_observation_no_compact _ _ (by simp [max_buckets]; omega) (by simp; omega)]
      rw [← List.replicate_succ']
      simp

theorem add_same_on_big :
    ∀ (t s n c : Nat) (f : Bool), s + t ≤ 254 → n + t < 2 ^ 32 →
      add_same 7 t ⟨n, f, ⟨7, 0, c⟩ :: List.replicate s (Bucket.single 7)⟩ =
        ⟨n + t, (if t = 0 then f else false),
          ⟨7, 0, c⟩ :: List.replicate (s + t) (Bucket.single 7)⟩ := by
  intro t
  induction t with
  | zero => intro s n c f _ _; simp [add_same]
  | succ m ih =>
      intro s n c f hs hn
      show add_same 7 m (Histogram.add_observation
        ⟨n, f, ⟨7, 0, c⟩ :: List.replicate s (Bucket.single 7)⟩ 7) = _
      rw [add_observation_no_compact _ _ (by simp [max_buckets]; omega) (by simp; omega)]
      have hrep : (⟨7, 0, c⟩ :: List.replicate s (Bucket.single 7)) ++ [Bucket.single 7]
          = ⟨7, 0, c⟩ :: List.replicate (s + 1) (Bucket.single 7) := by
        rw [List.cons_append, ← List.replicate_succ']
      rw [hrep]
      rw [ih (s + 1) (n + 1) c false (by omega) (by omega)]
      have hflag : (if m = 0 then false else false) = (if m + 1 = 0 then f else false) := by
        simp
      rw [hflag]
      rw [show n + 1 + m = n + (m + 1) from by omega]
      rw [show s + 1 + m = s + (m + 1) from by omega]

set_option maxRecDepth 8000 in
theorem add_same_cycle (n c : Nat) (f : Bool) (hn : n + 255 < 2 ^ 32) :
    add_same 7 255 ⟨n, f, [⟨7, 0, c⟩]⟩ =
      ⟨n + 255, true, [⟨7, 0, (c + 255) % W24⟩]⟩ := by
  rw [show add_same 7 255 (⟨n, f, [⟨7, 0, c⟩]⟩ : Histogram)
      = add_same 7 1 (add_same 7 254 ⟨n, f, [⟨7, 0, c⟩]⟩) from add_same_add 7 254 1 _]
  rw [show ([(⟨7, 0, c⟩ : Bucket)]) = ⟨7, 0, c⟩ :: List.replicate 0 (Bucket.single 7) from rfl]
  rw [add_same_on_big 254 0 n c f (by omega) (by omega)]
  show Histogram.add_observation
    ⟨n + 254, (if 254 = 0 then f else false),
      ⟨7, 0, c⟩ :: List.replicate (0 + 254) (Bucket.single 7)⟩ 7 = _
  unfold Histogram.add_observation
  rw [if_pos (by simp [max_buckets])]
  have hrep : (⟨7, 0, c⟩ :: List.replicate (0 + 254) (Bucket.single 7)) ++ [Bucket.single 7]
      = ⟨7, 0, c⟩ :: List.replicate 255 (Bucket.single 7) := by
    rw [List.cons_append, ← List.replicate_succ']
  rw [hrep]
  rw [Nat.mod_eq_of_lt (by omega : n + 254 + 1 < 2 ^ 32)]
  rw [show n + 254 + 1 = n + 255 from by omega]
  exact compact_big_state (n + 255) c

set_option maxRecDepth 8000 in
theorem add_same_first_block :
    add_same 7 256 Histogram.empty = ⟨256, true, [⟨7, 0, 256⟩]⟩ := by
  rw [show add_same 7 256 Histogram.empty
      = add_same 7 1 (add_same 7 255 Histogram.empty) from add_same_add 7 255 1 _]
  rw [add_same_singles 255 (by omega)]
  show Histogram.add_observation
    ⟨255, (if 255 = 0 then true else false), List.replicate 255 (Bucket.single 7)⟩ 7 = _
  unfold Histogram.add_observation
  rw [if_pos (by simp [max_buckets])]
  have hrep : List.replicate 255 (Bucket.single 7) ++ [Bucket.single 7]
      = ⟨7, 0, 1⟩ :: List.replicate 255 (Bucket.single 7) := by
    rw [← List.replicate_succ']
    rfl
  rw [hrep]
  rw [show (255 + 1) % 2 ^ 32 = 256 from by norm_num]
  rw [compact_big_state 256 1]
  norm_num [W24]

theorem add_same_blocks :
    ∀ q : Nat, 256 + 255 * q ≤ 2 ^ 24 →
      add_same 7 (256 + 255 * q) Histogram.empty =
        ⟨256 + 255 * q, true, [⟨7, 0, (256 + 255 * q) % W24⟩]⟩ := by
  intro q
  induction q with
  | zero =>
      intro _
      simpa [W24] using add_same_first_block
  | succ p ih =>
      intro hq
      have hsplit : 256 + 255 * (p + 1) = (256 + 255 * p) + 255 := by ring
      rw [hsplit]
      rw [add_same_add 7 (256 + 255 * p) 255]
      rw [ih (by omega)]
      rw [add_same_cycle _ _ _ (by omega)]
      rw [Nat.mod_add_mod]

/-- C7: evaluation of the histogram at the failing input — 2^24 = 16777216
calls of `add_observation(7)` on a fresh histogram.  All observations merge
into a single bucket whose 24-bit count bit-field wraps to 0, so the sum of
the bucket counts is 0 while `_observations` is 16777216: the code's own
`invariant()` (Σ bucket.count == observations) is violated, as is the
claim. -/
theorem c7_code_evaluation :
    ¬ Histogram.invariant (add_same 7 16777216 Histogram.empty) ∧
      (add_same 7 16777216 Histogram.empty).observations = 16777216 ∧
      Histogram.sum_counts (add_same 7 16777216 Histogram.empty) = 0 := by
  have h16 : (16777216 : Nat) = 256 + 255 * 65792 := by norm_num
  have hst := add_same_blocks 65792 (by norm_num)
  rw [h16]
  rw [hst]
  have hmod : (256 + 255 * 65792) % W24 = 0 := by norm_num [W24]
  rw [hmod]
  refine ⟨?_, by norm_num, by simp [Histogram.sum_counts, Bucket.get_count]⟩
  intro hinv
  have hsum : Histogram.sum_counts
      ⟨256 + 255 * 65792, true, [⟨7, 0, 0⟩]⟩ = 0 := by
    simp [Histogram.sum_counts, Bucket.get_count]
  have := hinv.1
  rw [hsum] at this
  norm_num at this

/-! ### Grouped compaction lemmas (used for the C8 trace) -/

theorem flatGroups_cons (v : Nat) (g : List Bucket) (rest : List (Nat × List Bucket)) :
    flatGroups ((v, g) :: rest) = g ++ flatGroups rest := by
  simp [flatGroups]

theorem mem_insert_by_min {b x : Bucket} : ∀ {l : List Bucket},
    b ∈ insert_by_min x l → b = x ∨ b ∈ l := by
  intro l
  induction l with
  | nil => intro h; simp [insert_by_min] at h; exact Or.inl h
  | cons c rest ih =>
      intro h
      rw [insert_by_min] at h
      by_cases hlt : x.get_min < c.get_min
      · rw [if_pos hlt] at h
        rcases List.mem_cons.1 h with h | h
        · exact Or.inl h
        · exact Or.inr h
      · rw [if_neg hlt] at h
        rcases List.mem_cons.1 h with h | h
        · exact Or.inr (h ▸ List.mem_cons_self c rest)
        · rcases ih h with h | h
          · exact Or.inl h
          · exact Or.inr (List.mem_cons.2 (Or.inr h))

theorem mem_sort_by_min {b : Bucket} : ∀ {l : List Bucket},
    b ∈ sort_by_min l → b ∈ l := by
  intro l
  induction l with
  | nil => intro h; simpa [sort_by_min] using h
  | cons c rest ih =>
      intro h
      rw [sort_by_min] at h
      rcases mem_insert_by_min h with h | h
      · exact h ▸ List.mem_cons_self c rest
      · exact List.mem_cons.2 (Or.inr (ih h))

theorem insert_after_equals (x : Bucket) :
    ∀ (eqs rest : List Bucket),
      (∀ c ∈ eqs, ¬ (x.get_min < c.get_min)) →
      (∀ y ∈ rest.head?, x.get_min < y.get_min) →
      insert_by_min x (eqs ++ rest) = eqs ++ x :: rest := by
  intro eqs
  induction eqs with
  | nil =>
      intro rest _ hrest
      cases rest with
      | nil => rfl
      | cons y ys =>
          rw [List.nil_append, insert_by_min, if_pos (hrest y rfl)]
          rfl
  | cons c cs ih =>
      intro rest heqs hrest
      rw [List.cons_append, insert_by_min,
        if_neg (heqs c (List.mem_cons_self c cs)), List.cons_append]
      rw [ih rest (fun d hd => heqs d (List.mem_cons_of_mem c hd)) hrest]

theorem sort_append_group (v : Nat) :
    ∀ (g R : List Bucket),
      (∀ c ∈ g, c.observation_min = v) →
      (∀ y ∈ R, v < y.observation_min) →
      sort_by_min (g ++ R) = g.reverse ++ sort_by_min R := by
  intro g
  induction g with
  | nil => intro R _ _; simp
  | cons x g1 ih =>
      intro R hg hR
      rw [List.cons_append, sort_by_min]
      rw [ih R (fun c hc => hg c (List.mem_cons_of_mem x hc)) hR]
      have hx : x.observation_min = v := hg x (List.mem_cons_self x g1)
      have heqs : ∀ c ∈ g1.reverse, ¬ (x.get_min < c.get_min) := by
        intro c hc
        have : c.observation_min = v :=
          hg c (List.mem_cons_of_mem x (List.mem_reverse.1 hc))
        simp [Bucket.get_min, hx, this]
      have hhead : ∀ y ∈ (sort_by_min R).head?, x.get_min < y.get_min := by
        intro y hy
        have hmem : y ∈ sort_by_min R := List.mem_of_mem_head? hy
        have := hR y (mem_sort_by_min hmem)
        simpa [Bucket.get_min, hx] using this
      rw [insert_after_equals x g1.reverse (sort_by_min R) heqs hhead]
      simp

theorem flatGroups_min_bound (target vlow : Nat) :
    ∀ gs : List (Nat × List Bucket), groupsOk target gs →
      (∀ y ∈ gs.head?, vlow < y.fst) →
      ∀ b ∈ flatGroups gs, vlow < b.observation_min := by
  intro gs
  induction gs with
  | nil => intro _ _ b hb; simp [flatGroups] at hb
  | cons p rest ih =>
      intro hok hhead b hb
      obtain ⟨v, g⟩ := p
      obtain ⟨hv, hne, hmin, htot, hbd, hrest⟩ := hok
      have hvlow : vlow < v := hhead (v, g) rfl
      rw [flatGroups_cons] at hb
      rcases List.mem_append.1 hb with h | h
      · rw [(hmin b h).1]; exact hvlow
      · refine ih hrest ?_ b h
        intro y hy
        cases rest with
        | nil => simp at hy
        | cons q qs =>
            obtain ⟨v2, g2⟩ := q
            have hyq : (v2, g2) = y := by simpa using hy
            obtain ⟨hvv2, _⟩ := hbd
            rw [← hyq]
            exact lt_trans hvlow hvv2

theorem sort_flatGroups (target : Nat) :
    ∀ gs : List (Nat × List Bucket), groupsOk target gs →
      sort_by_min (flatGroups gs) = flatGroups (reverseGroups gs) := by
  intro gs
  induction gs with
  | nil => intro _; rfl
  | cons p rest ih =>
      intro hok
      obtain ⟨v, g⟩ := p
      obtain ⟨hv, hne, hmin, htot, hbd, hrest⟩ := hok
      rw [flatGroups_cons]
      have hR : ∀ y ∈ flatGroups rest, v < y.observation_min := by
        refine flatGroups_min_bound target v rest hrest ?_
        intro y hy
        cases rest with
        | nil => simp at hy
        | cons q qs =>
            obtain ⟨v2, g2⟩ := q
            have hyq : (v2, g2) = y := by simpa using hy
            obtain ⟨hvv2, _⟩ := hbd
            rw [← hyq]
            exact hvv2
      rw [sort_append_group v g (flatGroups rest) (fun c hc => (hmin c hc).1) hR]
      rw [ih hrest]
      simp [flatGroups, reverseGroups]

theorem groupsOk_reverse (target : Nat) :
    ∀ gs : List (Nat × List Bucket), groupsOk target gs →
      groupsOk target (reverseGroups gs) := by
  intro gs
  induction gs with
  | nil => intro _; trivial
  | cons p rest ih =>
      intro hok
      obtain ⟨v, g⟩ := p
      obtain ⟨hv, hne, hmin, htot, hbd, hrest⟩ := hok
      have htotr : groupTotal g.reverse = groupTotal g := by
        simp [groupTotal, List.sum_reverse]
      refine ⟨hv, by simpa using hne, fun b hb => hmin b (List.mem_reverse.1 hb),
        by rwa [htotr], ?_, ih hrest⟩
      cases rest with
      | nil => trivial
      | cons q qs =>
          obtain ⟨v2, g2⟩ := q
          rw [htotr]
          exact hbd

theorem groupTotal_cons (b : Bucket) (g : List Bucket) :
    groupTotal (b :: g) = b.count + groupTotal g := by
  simp [groupTotal]

theorem groupTotal_reverse (g : List Bucket) :
    groupTotal g.reverse = groupTotal g := by
  simp [groupTotal, List.sum_reverse]

theorem sweep_absorb_group (target : Nat) :
    ∀ (g : List Bucket) (v c : Nat) (rest : List Bucket), v < W64 →
      (∀ b ∈ g, b.observation_min = v ∧ b.observation_span = 0) →
      c + groupTotal g < W24 →
      sweep target ⟨v, 0, c⟩ (g ++ rest) =
        sweep target ⟨v, 0, c + groupTotal g⟩ rest := by
  intro g
  induction g with
  | nil => intro v c rest _ _ _; simp [groupTotal]
  | cons b g1 ih =>
      intro v c rest hv hmem htot
      obtain ⟨hbv, hbs⟩ := hmem b (List.mem_cons_self b g1)
      have hover : Bucket.is_overlapping b ⟨v, 0, c⟩ := by
        constructor
        · simp [Bucket.get_min, Bucket.get_max, hbv, Nat.mod_eq_of_lt hv]
        · simp [Bucket.get_min, Bucket.get_max, hbv, hbs, Nat.mod_eq_of_lt hv]
      rw [List.cons_append, sweep_cons_merge (Or.inr hover)]
      have hcb : c + b.count < W24 := by
        rw [groupTotal_cons] at htot
        omega
      have hmerge : Bucket.merge ⟨v, 0, c⟩ b = ⟨v, 0, c + b.count⟩ := by
        cases b with
        | mk bmin bspan bcount =>
            simp only [Bucket.count] at hcb
            simp only at hbv hbs
            subst hbv
            subst hbs
            simp [Bucket.merge, Bucket.get_min, Bucket.get_max,
              Nat.mod_eq_of_lt hv, Nat.mod_eq_of_lt hcb, Bucket.count]
      rw [hmerge]
      rw [ih v (c + b.count) rest hv
        (fun d hd => hmem d (List.mem_cons_of_mem b hd))
        (by rw [groupTotal_cons] at htot; omega)]
      rw [groupTotal_cons]
      congr 2
      omega

theorem sweep_keep_boundary (target : Nat) (v c : Nat) (b : Bucket)
    (rest : List Bucket) (hv : v < W64) (hc : target ≤ c)
    (hb : v < b.observation_min) :
    sweep target ⟨v, 0, c⟩ (b :: rest) = ⟨v, 0, c⟩ :: sweep target b rest := by
  rw [sweep]
  rw [if_neg]
  intro hcond
  rcases hcond with h | h
  · simp [Bucket.get_count] at h
    omega
  · obtain ⟨h1, _⟩ := h
    rw [Bucket.get_min] at h1
    have : Bucket.get_max ⟨v, 0, c⟩ = v := by
      simp [Bucket.get_max]
      exact Nat.mod_eq_of_lt hv
    rw [this] at h1
    omega

theorem sweep_grouped (target : Nat) :
    ∀ (gs : List (Nat × List Bucket)) (v c : Nat), v < W64 →
      groupsOk target gs →
      (∀ y ∈ gs.head?, v < y.fst) →
      (gs ≠ [] → target ≤ c) →
      sweep target ⟨v, 0, c⟩ (flatGroups gs) =
        ⟨v, 0, c⟩ :: consolidateGroups gs := by
  intro gs
  induction gs with
  | nil => intro v c _ _ _ _; rfl
  | cons p rest ih =>
      intro v c hv hok hhead hc
      obtain ⟨v1, g1⟩ := p
      obtain ⟨hv1, hne, hmin, htot, hbd, hrest⟩ := hok
      obtain ⟨b, g1t, hbg⟩ : ∃ b g1t, g1 = b :: g1t := by
        cases g1 with
        | nil => exact absurd rfl hne
        | cons b t => exact ⟨b, t, rfl⟩
      subst hbg
      obtain ⟨bmin, bspan, bcount⟩ := b
      obtain ⟨hbv, hbs⟩ := hmin ⟨bmin, bspan, bcount⟩ (List.mem_cons_self _ g1t)
      simp only at hbv hbs
      have hbv' := hbv.symm
      subst hbv'
      subst hbs
      rw [flatGroups_cons, List.cons_append]
      have hvv1 : v < v1 := hhead (v1, ⟨v1, 0, bcount⟩ :: g1t) rfl
      rw [sweep_keep_boundary target v c ⟨v1, 0, bcount⟩ (g1t ++ flatGroups rest) hv
        (hc (by simp)) hvv1]
      rw [show (⟨v1, 0, bcount⟩ : Bucket) = (⟨v1, 0, Bucket.count ⟨v1, 0, bcount⟩⟩ : Bucket)
        from rfl]
      rw [sweep_absorb_group target g1t v1 (Bucket.count ⟨v1, 0, bcount⟩) (flatGroups rest) hv1
        (fun d hd => hmin d (List.mem_cons_of_mem _ hd))
        (by rw [groupTotal_cons] at htot; simpa [Bucket.count] using htot)]
      have htotal : Bucket.count ⟨v1, 0, bcount⟩ + groupTotal g1t =
          groupTotal (⟨v1, 0, bcount⟩ :: g1t) := by
        rw [groupTotal_cons]
      rw [htotal]
      cases rest with
      | nil =>
          simp [flatGroups, consolidateGroups, sweep]
      | cons q qs =>
          obtain ⟨v2, g2⟩ := q
          obtain ⟨hv12, htarget⟩ := hbd
          rw [ih v1 (groupTotal (⟨v1, 0, bcount⟩ :: g1t)) hv1 hrest
            (by intro y hy; have : (v2, g2) = y := by simpa using hy
                rw [← this]; exact hv12)
            (fun _ => htarget)]
          simp [consolidateGroups]

theorem compact_grouped (n : Nat) (gs : List (Nat × List Bucket))
    (hne : gs ≠ []) (hok : groupsOk (1 + round_div32 n 256) gs) :
    Histogram.compact ⟨n, false, flatGroups gs⟩ =
      ⟨n, true, consolidateGroups gs⟩ := by
  rw [Histogram.compact]
  rw [if_neg (by simp :
    ¬ ((⟨n, false, flatGroups gs⟩ : Histogram).compacted = true))]
  simp only
  rw [sort_flatGroups (1 + round_div32 n 256) gs hok]
  obtain ⟨p, rest, hgs⟩ : ∃ p rest, gs = p :: rest := by
    cases gs with
    | nil => exact absurd rfl hne
    | cons p rest => exact ⟨p, rest, rfl⟩
  subst hgs
  obtain ⟨v1, g1⟩ := p
  have hokr := groupsOk_reverse _ _ hok
  obtain ⟨hv1, hne1, hmin1, htot1, hbd1, hrest1⟩ := hokr
  obtain ⟨b, g1t, hbg⟩ : ∃ b g1t, g1.reverse = b :: g1t := by
    cases hrev : g1.reverse with
    | nil => exact absurd hrev (by simpa using hne1)
    | cons b t => exact ⟨b, t, rfl⟩
  have hflat : flatGroups (reverseGroups ((v1, g1) :: rest)) =
      b :: (g1t ++ flatGroups (reverseGroups rest)) := by
    simp only [reverseGroups, List.map_cons, flatGroups_cons, hbg, List.cons_append]
  rw [hflat]
  show (⟨n, true,
      sweep (1 + round_div32 n 256) b (g1t ++ flatGroups (reverseGroups rest))⟩ :
    Histogram) = _
  obtain ⟨hbv, hbs⟩ := hmin1 b (hbg ▸ List.mem_cons_self b g1t)
  have hbeta : b = (⟨v1, 0, b.count⟩ : Bucket) := by
    cases b with
    | mk bmin bspan bcount =>
        simp only at hbv hbs
        subst hbv
        subst hbs
        rfl
  rw [hbeta]
  rw [sweep_absorb_group _ g1t v1 b.count (flatGroups (reverseGroups rest)) hv1
    (fun d hd => hmin1 d (hbg ▸ List.mem_cons_of_mem b hd))
    (by rw [show b.count + groupTotal g1t = groupTotal (b :: g1t) from
          (groupTotal_cons b g1t).symm, ← hbg]
        exact htot1)]
  rw [show b.count + groupTotal g1t = groupTotal (b :: g1t) from
    (groupTotal_cons b g1t).symm, ← hbg, groupTotal_reverse]
  cases rest with
  | nil =>
      simp [flatGroups, reverseGroups, consolidateGroups, sweep]
  | cons q qs =>
      obtain ⟨v2, g2⟩ := q
      simp only [reverseGroups, List.map_cons] at hbd1
      rw [groupTotal_reverse] at hbd1
      obtain ⟨hv12, htarget⟩ := hbd1
      rw [sweep_grouped _ (reverseGroups ((v2, g2) :: qs)) v1 (groupTotal g1) hv1
        hrest1
        (by intro y hy
            have : (v2, g2.reverse) = y := by
              simpa [reverseGroups] using hy
            rw [← this]
            exact hv12)
        (fun _ => htarget)]
      have hcons : consolidateGroups (reverseGroups ((v2, g2) :: qs)) =
          consolidateGroups ((v2, g2) :: qs) := by
        simp [consolidateGroups, reverseGroups, groupTotal_reverse]
      rw [hcons]
      simp [consolidateGroups]

theorem singlesSeg_chunk (mc m : Nat) (hlt : mc < m) :
    singlesSeg mc m =
      List.replicate (min m (130 * (mc / 130 + 1)) - mc)
          (Bucket.single (1000 * (mc / 130)))
        ++ singlesSeg (min m (130 * (mc / 130 + 1))) m := by
  set k := mc / 130 with hk
  set e := min m (130 * (k + 1)) with he
  have hmce : mc < e := by
    have h1 : mc < 130 * (k + 1) := by
      rw [hk]
      omega
    omega
  have hem : e ≤ m := by omega
  have hsplit : m - mc = (e - mc) + (m - e) := by omega
  rw [singlesSeg, hsplit, List.range_add, List.map_append, List.map_map]
  congr 1
  · have : ∀ q ∈ List.range (e - mc), Bucket.single (1000 * ((mc + q) / 130)) =
        Bucket.single (1000 * k) := by
      intro q hq
      have hq' : q < e - mc := List.mem_range.1 hq
      have hdiv : (mc + q) / 130 = k := by
        have h1 : 130 * k ≤ mc + q := by
          have := Nat.div_mul_le_self mc 130
          omega
        have h2 : mc + q < 130 * (k + 1) := by omega
        omega
      rw [hdiv]
    rw [List.map_congr_left this, List.map_const', List.length_range]
  · rw [singlesSeg]
    apply List.map_congr_left
    intro q hq
    simp only [Function.comp]
    congr 2
    omega

theorem flatMap_nil_of {α β : Type} (l : List α) (f : α → List β)
    (h : ∀ x ∈ l, f x = []) : l.flatMap f = [] := by
  induction l with
  | nil => rfl
  | cons a t ih =>
      rw [List.flatMap_cons, h a (List.mem_cons_self a t), List.nil_append]
      exact ih (fun x hx => h x (List.mem_cons_of_mem a hx))

theorem flatMap_congr_mem {α β : Type} (l : List α) (f g : α → List β)
    (h : ∀ x ∈ l, f x = g x) : l.flatMap f = l.flatMap g := by
  induction l with
  | nil => rfl
  | cons a t ih =>
      rw [List.flatMap_cons, List.flatMap_cons, h a (List.mem_cons_self a t),
        ih (fun x hx => h x (List.mem_cons_of_mem a hx))]

theorem singlesSeg_grouped :
    ∀ (d mc m : Nat), m - mc ≤ d → mc ≤ m →
      singlesSeg mc m =
        ((List.range (stationsTouched m - mc / 130)).map (fun t => t + mc / 130)).flatMap
          (fun i => stationSingles mc m i) := by
  intro d
  induction d with
  | zero =>
      intro mc m hd hle
      have hmc : mc = m := by omega
      subst hmc
      rw [show singlesSeg mc mc = [] from by simp [singlesSeg]]
      rw [flatMap_nil_of]
      intro i _
      simp [stationSingles]
  | succ n ih =>
      intro mc m hd hle
      by_cases heq : mc = m
      · subst heq
        rw [show singlesSeg mc mc = [] from by simp [singlesSeg]]
        rw [flatMap_nil_of]
        intro i _
        simp [stationSingles]
      · have hlt : mc < m := by omega
        set k := mc / 130 with hk
        have hkb : 130 * k ≤ mc ∧ mc < 130 * (k + 1) := by
          rw [hk]
          omega
        rw [singlesSeg_chunk mc m hlt]
        set e := min m (130 * (k + 1)) with he
        have hSk : k + 1 ≤ stationsTouched m := by
          rw [stationsTouched]
          omega
        have hrange : List.range (stationsTouched m - k) =
            0 :: (List.range (stationsTouched m - k - 1)).map Nat.succ := by
          rw [show stationsTouched m - k = (stationsTouched m - k - 1) + 1 from by omega]
          exact List.range_succ_eq_map _
        rw [hrange, List.map_cons, List.flatMap_cons, List.map_map]
        congr 1
        · rw [Nat.zero_add, stationSingles, ← hk]
          congr 1
          rw [stationCount, stationCount, hk]
          omega
        · by_cases hem : e = m
          · have hnil : singlesSeg e m = [] := by
              rw [hem]
              simp [singlesSeg]
            have hSm : stationsTouched m = k + 1 := by
              rw [stationsTouched]
              have : m ≤ 130 * (k + 1) := by omega
              omega
            rw [hnil, hSm]
            rw [show k + 1 - k - 1 = 0 from by omega]
            rfl
          · have he' : e = 130 * (k + 1) := by omega
            have hlte : e ≤ m := by omega
            have hih := ih e m (by omega) hlte
            have hek : e / 130 = k + 1 := by
              rw [he']
              omega
            rw [hih, hek]
            have hmap : ∀ i ∈ (List.range (stationsTouched m - (k + 1))).map
                (fun t => t + (k + 1)), stationSingles e m i = stationSingles mc m i := by
              intro i hi
              obtain ⟨t, _, hti⟩ := List.mem_map.1 hi
              have hik : k + 1 ≤ i := by omega
              rw [stationSingles, stationSingles]
              congr 2
              rw [stationCount, stationCount]
              have h2 : 130 * (k + 1) ≤ 130 * i := Nat.mul_le_mul_left 130 hik
              omega
            rw [flatMap_congr_mem _ _ _ hmap]
            have hlist : (List.range (stationsTouched m - (k + 1))).map
                (fun t => t + (k + 1)) =
                (List.range (stationsTouched m - k - 1)).map
                  ((fun t => t + k) ∘ Nat.succ) := by
              rw [show stationsTouched m - (k + 1) = stationsTouched m - k - 1 from by omega]
              apply List.map_congr_left
              intro t _
              simp [Function.comp, Nat.succ_eq_add_one]
              omega
            rw [hlist]

theorem flatMap_singleton_eq_map {α β : Type} (l : List α) (f : α → β) :
    l.flatMap (fun x => [f x]) = l.map f := by
  induction l with
  | nil => rfl
  | cons a t ih => rw [List.flatMap_cons, List.map_cons, ih]; rfl

theorem consolidated_split (mc : Nat) :
    consolidatedBuckets mc =
      (List.range (mc / 130)).map (fun i => (⟨1000 * i, 0, stationCount i mc⟩ : Bucket))
        ++ (if 0 < stationCount (mc / 130) mc then
              [(⟨1000 * (mc / 130), 0, stationCount (mc / 130) mc⟩ : Bucket)]
            else []) := by
  set k := mc / 130 with hk
  rw [consolidatedBuckets]
  by_cases hr : 0 < stationCount k mc
  · have hS : stationsTouched mc = k + 1 := by
      rw [stationsTouched]
      rw [stationCount] at hr
      rw [hk] at *
      omega
    rw [hS, if_pos hr, List.range_succ, List.map_append]
    rfl
  · have hS : stationsTouched mc = k := by
      rw [stationsTouched]
      rw [stationCount] at hr
      rw [hk] at *
      omega
    rw [hS, if_neg hr, List.append_nil]

theorem flat_stationGroups (mc m : Nat) (hle : mc ≤ m) :
    flatGroups (stationGroups mc m) = consolidatedBuckets mc ++ singlesSeg mc m := by
  set k := mc / 130 with hk
  have hkb : 130 * k ≤ mc ∧ mc < 130 * (k + 1) := by
    rw [hk]
    omega
  have hflat : flatGroups (stationGroups mc m) =
      (List.range (stationsTouched m)).flatMap (fun i => stationGroup mc m i) := by
    rw [flatGroups, stationGroups, List.flatMap_map]
  have hkS : k ≤ stationsTouched m := by
    rw [hk, stationsTouched]
    omega
  have hidx : List.range (stationsTouched m) =
      List.range k ++ (List.range (stationsTouched m - k)).map (fun t => k + t) := by
    rw [show stationsTouched m = k + (stationsTouched m - k) from by omega]
    rw [List.range_add, Nat.add_sub_cancel_left]
  have hpart1 : (List.range k).flatMap (fun i => stationGroup mc m i) =
      (List.range k).map (fun i => (⟨1000 * i, 0, stationCount i mc⟩ : Bucket)) := by
    rw [flatMap_congr_mem _ _
      (fun i => [(⟨1000 * i, 0, stationCount i mc⟩ : Bucket)]) ?_]
    · exact flatMap_singleton_eq_map _ _
    · intro i hi
      have hik : i < k := List.mem_range.1 hi
      have hpos : 0 < stationCount i mc := by
        rw [stationCount]
        omega
      have hdiff : stationCount i m - stationCount i mc = 0 := by
        rw [stationCount, stationCount]
        omega
      rw [stationGroup, if_pos hpos, stationSingles, hdiff]
      simp
  have hseg : singlesSeg mc m =
      ((List.range (stationsTouched m - k)).map (fun t => k + t)).flatMap
        (fun i => stationSingles mc m i) := by
    rw [singlesSeg_grouped (m - mc) mc m (le_refl _) hle, ← hk]
    congr 1
    apply List.map_congr_left
    intro t _
    omega
  have hpart2 :
      ((List.range (stationsTouched m - k)).map (fun t => k + t)).flatMap
        (fun i => stationGroup mc m i) =
      (if 0 < stationCount k mc then
          [(⟨1000 * k, 0, stationCount k mc⟩ : Bucket)]
        else [])
        ++ ((List.range (stationsTouched m - k)).map (fun t => k + t)).flatMap
            (fun i => stationSingles mc m i) := by
    cases hS : stationsTouched m - k with
    | zero =>
        have hmm : m = mc := by
          rw [stationsTouched] at hS
          rw [hk] at *
          omega
        subst hmm
        have hcnt0 : ¬ 0 < stationCount k m := by
          rw [stationCount]
          rw [stationsTouched] at hS
          omega
        rw [if_neg hcnt0]
        rfl
    | succ w =>
        rw [List.range_succ_eq_map, List.map_cons, List.map_map]
        rw [List.flatMap_cons, List.flatMap_cons]
        have hcongr : ∀ i ∈ (List.range w).map ((fun t => k + t) ∘ Nat.succ),
            stationGroup mc m i = stationSingles mc m i := by
          intro i hi
          obtain ⟨t, _, hti⟩ := List.mem_map.1 hi
          have hik : k < i := by
            simp [Function.comp] at hti
            omega
          have hcnt0 : ¬ 0 < stationCount i mc := by
            rw [stationCount]
            have h2 : 130 * (k + 1) ≤ 130 * i := Nat.mul_le_mul_left 130 hik
            omega
          rw [stationGroup, if_neg hcnt0, List.nil_append]
        rw [flatMap_congr_mem _ _ _ hcongr]
        rw [show k + 0 = k from by omega]
        rw [stationGroup]
        rw [List.append_assoc]
  rw [hflat, hidx, List.flatMap_append, hpart1, hpart2, consolidated_split, ← hk, hseg]
  rw [List.append_assoc]

theorem groupTotal_stationGroup (mc m i : Nat) (hle : mc ≤ m) :
    groupTotal (stationGroup mc m i) = stationCount i m := by
  have hcc : stationCount i mc ≤ stationCount i m := by
    rw [stationCount, stationCount]
    omega
  rw [stationGroup, stationSingles]
  by_cases hc : 0 < stationCount i mc
  · rw [if_pos hc]
    simp [groupTotal, Bucket.single, List.sum_replicate]
    omega
  · rw [if_neg hc]
    simp [groupTotal, Bucket.single, List.sum_replicate]
    omega

theorem stationGroup_ne_nil (mc m i : Nat) (hi : 0 < stationCount i m) :
    stationGroup mc m i ≠ [] := by
  apply List.ne_nil_of_length_pos
  rw [stationGroup, stationSingles, List.length_append, List.length_replicate]
  by_cases hc : 0 < stationCount i mc
  · rw [if_pos hc]
    simp
  · rw [if_neg hc]
    simp
    omega

theorem stationGroup_members (mc m i : Nat) :
    ∀ b ∈ stationGroup mc m i,
      b.observation_min = 1000 * i ∧ b.observation_span = 0 := by
  intro b hb
  rw [stationGroup, stationSingles] at hb
  rcases List.mem_append.1 hb with h | h
  · by_cases hc : 0 < stationCount i mc
    · rw [if_pos hc] at h
      simp at h
      subst h
      exact ⟨rfl, rfl⟩
    · rw [if_neg hc] at h
      simp at h
  · have := List.eq_of_mem_replicate h
    subst this
    exact ⟨rfl, rfl⟩

theorem stationCount_pos (i m : Nat) (hi : i < stationsTouched m) :
    0 < stationCount i m := by
  rw [stationsTouched] at hi
  rw [stationCount]
  omega

theorem stationGroups_ok_aux (mc m : Nat) (hle : mc ≤ m) (hm : m ≤ 33151) :
    ∀ cnt s : Nat, s + cnt = stationsTouched m →
      groupsOk (1 + round_div32 m 256)
        ((List.range cnt).map (fun t => (1000 * (s + t), stationGroup mc m (s + t)))) := by
  have htarget : 1 + round_div32 m 256 ≤ 130 := by
    rw [round_div32]
    have : (m + 256 / 2) % 2 ^ 32 = m + 128 := by omega
    rw [this]
    omega
  intro cnt
  induction cnt with
  | zero =>
      intro s _
      rw [List.range_zero, List.map_nil]
      exact trivial
  | succ w ih =>
      intro s hs
      rw [List.range_succ_eq_map, List.map_cons, List.map_map]
      have hsm : s < stationsTouched m := by omega
      have hsb : s < 256 := by
        rw [stationsTouched] at hs
        omega
      have hposm : 0 < stationCount s m := stationCount_pos s m hsm
      have hmaps : (List.range w).map
          ((fun t => (1000 * (s + t), stationGroup mc m (s + t))) ∘ Nat.succ) =
          (List.range w).map
            (fun t => (1000 * (s + 1 + t), stationGroup mc m (s + 1 + t))) := by
        apply List.map_congr_left
        intro t _
        simp only [Function.comp, Nat.succ_eq_add_one]
        rw [show s + (t + 1) = s + 1 + t from by omega]
      rw [hmaps]
      refine ⟨?_, ?_, ?_, ?_, ?_, ?_⟩
      · rw [Nat.add_zero, show W64 = 2 ^ 64 from rfl]
        omega
      · rw [Nat.add_zero]
        exact stationGroup_ne_nil mc m s hposm
      · rw [Nat.add_zero]
        exact stationGroup_members mc m s
      · rw [Nat.add_zero, groupTotal_stationGroup mc m s hle, stationCount,
          show W24 = 2 ^ 24 from rfl]
        omega
      · cases w with
        | zero =>
            rw [List.range_zero, List.map_nil]
            exact trivial
        | succ w2 =>
            rw [List.range_succ_eq_map, List.map_cons]
            refine ⟨by omega, ?_⟩
            rw [Nat.add_zero, groupTotal_stationGroup mc m s hle]
            have hfull : stationCount s m = 130 := by
              rw [stationCount]
              rw [stationsTouched] at hs
              omega
            omega
      · exact ih (s + 1) (by omega)

theorem stationGroups_ok (mc m : Nat) (hle : mc ≤ m) (hm : m ≤ 33151) :
    groupsOk (1 + round_div32 m 256) (stationGroups mc m) := by
  have := stationGroups_ok_aux mc m hle hm (stationsTouched m) 0 (by omega)
  rw [stationGroups]
  have hmap : (List.range (stationsTouched m)).map
      (fun t => (1000 * (0 + t), stationGroup mc m (0 + t))) =
      (List.range (stationsTouched m)).map
        (fun i => (1000 * i, stationGroup mc m i)) := by
    apply List.map_congr_left
    intro t _
    rw [Nat.zero_add]
  rw [hmap] at this
  exact this

theorem consolidate_stationGroups (mc m : Nat) (hle : mc ≤ m) :
    consolidateGroups (stationGroups mc m) = consolidatedBuckets m := by
  rw [consolidateGroups, stationGroups, consolidatedBuckets, List.map_map]
  apply List.map_congr_left
  intro i _
  simp only [Function.comp]
  rw [groupTotal_stationGroup mc m i hle]

theorem station_compact (mc m : Nat) (hle : mc ≤ m) (hm : m ≤ 33151) (h0 : 0 < m) :
    Histogram.compact ⟨m, false, consolidatedBuckets mc ++ singlesSeg mc m⟩ =
      ⟨m, true, consolidatedBuckets m⟩ := by
  have hne : stationGroups mc m ≠ [] := by
    apply List.ne_nil_of_length_pos
    rw [stationGroups, List.length_map, List.length_range, stationsTouched]
    omega
  rw [← flat_stationGroups mc m hle,
    compact_grouped m (stationGroups mc m) hne (stationGroups_ok mc m hle hm),
    consolidate_stationGroups mc m hle]

theorem consolidatedBuckets_length (m : Nat) :
    (consolidatedBuckets m).length = stationsTouched m := by
  rw [consolidatedBuckets]
  simp

theorem singlesSeg_length (mc m : Nat) : (singlesSeg mc m).length = m - mc := by
  rw [singlesSeg]
  simp

theorem singlesSeg_snoc (mc j : Nat) (h : mc ≤ j) :
    singlesSeg mc (j + 1) = singlesSeg mc j ++ [Bucket.single (1000 * (j / 130))] := by
  rw [singlesSeg, singlesSeg, show j + 1 - mc = (j - mc) + 1 from by omega,
    List.range_succ, List.map_append]
  have hmcj : mc + (j - mc) = j := by omega
  simp [hmcj]

theorem add_observation_with_compact (h : Histogram) (v : Nat)
    (hlen : h.buckets.length + 1 = max_buckets) (hobs : h.observations + 1 < 2 ^ 32) :
    h.add_observation v =
      Histogram.compact ⟨h.observations + 1, false, h.buckets ++ [Bucket.single v]⟩ := by
  unfold Histogram.add_observation
  rw [if_pos (by simp; omega)]
  rw [Nat.mod_eq_of_lt hobs]

theorem station_add_step (cpd : Bool) (mc j : Nat) (hle : mc ≤ j)
    (hfl : stationsTouched mc + (j - mc) + 1 < 256) (hj : j + 1 < 2 ^ 32) :
    Histogram.add_observation ⟨j, cpd, consolidatedBuckets mc ++ singlesSeg mc j⟩
        (1000 * (j / 130)) =
      ⟨j + 1, false, consolidatedBuckets mc ++ singlesSeg mc (j + 1)⟩ := by
  rw [add_observation_no_compact _ _ ?_ (by simpa using hj)]
  · rw [singlesSeg_snoc mc j hle, ← List.append_assoc]
  · rw [List.length_append, consolidatedBuckets_length, singlesSeg_length,
      show max_buckets = 256 from rfl]
    omega

theorem station_add_trigger (cpd : Bool) (mc j : Nat) (hle : mc ≤ j)
    (hfl : stationsTouched mc + (j - mc) + 1 = 256) (hj : j + 1 ≤ 33151) :
    Histogram.add_observation ⟨j, cpd, consolidatedBuckets mc ++ singlesSeg mc j⟩
        (1000 * (j / 130)) =
      ⟨j + 1, true, consolidatedBuckets (j + 1)⟩ := by
  rw [add_observation_with_compact _ _ ?_ (by simp; omega)]
  · rw [show ((⟨j, cpd, consolidatedBuckets mc ++ singlesSeg mc j⟩ : Histogram).observations)
        = j from rfl]
    rw [show ((⟨j, cpd, consolidatedBuckets mc ++ singlesSeg mc j⟩ : Histogram).buckets)
        = consolidatedBuckets mc ++ singlesSeg mc j from rfl]
    rw [List.append_assoc, ← singlesSeg_snoc mc j hle]
    exact station_compact mc (j + 1) (by omega) hj (by omega)
  · rw [List.length_append, consolidatedBuckets_length, singlesSeg_length,
      show max_buckets = 256 from rfl]
    omega

theorem station_obs_take_succ (j : Nat) (hj : j < 33151) :
    station_obs.take (j + 1) = station_obs.take j ++ [1000 * (j / 130)] := by
  have hget : station_obs[j]? = some (1000 * (j / 130)) := by
    rw [station_obs]
    simp [List.getElem?_map, List.getElem?_range, hj]
  rw [List.take_succ, hget]
  rfl

theorem add_all_take_succ (j : Nat) (hj : j < 33151) :
    add_all Histogram.empty (station_obs.take (j + 1)) =
      (add_all Histogram.empty (station_obs.take j)).add_observation
        (1000 * (j / 130)) := by
  rw [station_obs_take_succ j hj, add_all, List.foldl_append]
  rfl

theorem window_run (mc : Nat) (hmc : mc < 33151)
    (hst : mc + (256 - stationsTouched mc) ≤ 33151)
    (hS : add_all Histogram.empty (station_obs.take mc) =
      ⟨mc, true, consolidatedBuckets mc⟩) :
    ∀ n : Nat, mc + n ≤ mc + (256 - stationsTouched mc) →
      (mc + n < mc + (256 - stationsTouched mc) →
        ∃ c : Bool, add_all Histogram.empty (station_obs.take (mc + n)) =
          ⟨mc + n, c, consolidatedBuckets mc ++ singlesSeg mc (mc + n)⟩) ∧
      (mc + n = mc + (256 - stationsTouched mc) →
        add_all Histogram.empty (station_obs.take (mc + n)) =
          ⟨mc + n, true, consolidatedBuckets (mc + n)⟩) := by
  have hstmc : stationsTouched mc ≤ 255 := by
    rw [stationsTouched]
    omega
  intro n
  induction n with
  | zero =>
      intro _
      constructor
      · intro _
        refine ⟨true, ?_⟩
        rw [Nat.add_zero, hS, show singlesSeg mc mc = [] from by
          rw [singlesSeg]
          simp]
        rw [List.append_nil]
      · intro habs
        omega
  | succ w ih =>
      intro hn
      have hw : mc + w < mc + (256 - stationsTouched mc) := by omega
      obtain ⟨c, hc⟩ := (ih (by omega)).1 hw
      have hsucc : mc + (w + 1) = (mc + w) + 1 := by omega
      constructor
      · intro hlt
        refine ⟨false, ?_⟩
        rw [hsucc, add_all_take_succ (mc + w) (by omega), hc]
        exact station_add_step c mc (mc + w) (by omega) (by omega) (by omega)
      · intro heq
        rw [hsucc, add_all_take_succ (mc + w) (by omega), hc]
        exact station_add_trigger c mc (mc + w) (by omega) (by omega) (by omega)

theorem compPoint_le (i : Nat) : compPoint i ≤ 33151 := by
  induction i with
  | zero =>
      rw [compPoint]
      omega
  | succ w ih =>
      rw [compPoint, stationsTouched]
      omega

theorem orbit_state : ∀ i : Nat,
    add_all Histogram.empty (station_obs.take (compPoint i)) =
      ⟨compPoint i, true, consolidatedBuckets (compPoint i)⟩ := by
  intro i
  induction i with
  | zero =>
      rw [compPoint]
      rw [show station_obs.take 0 = [] from rfl]
      rw [show add_all Histogram.empty [] = Histogram.empty from rfl]
      rfl
  | succ w ih =>
      by_cases hend : compPoint w = 33151
      · have hsame : compPoint (w + 1) = compPoint w := by
          rw [compPoint, hend, stationsTouched]
        rw [hsame]
        exact ih
      · have hlt : compPoint w < 33151 := by
          have := compPoint_le w
          omega
        have hnext : compPoint (w + 1) =
            compPoint w + (256 - stationsTouched (compPoint w)) := by
          rw [compPoint]
        have hnle : compPoint w + (256 - stationsTouched (compPoint w)) ≤ 33151 := by
          rw [stationsTouched]
          omega
        have := (window_run (compPoint w) hlt hnle ih
          (256 - stationsTouched (compPoint w)) (by omega)).2 (by omega)
        rw [hnext]
        exact this

theorem compPoint_reach_aux : ∀ d i : Nat, 33150 - compPoint i ≤ d →
    compPoint i ≤ 33150 → ∃ j : Nat, compPoint j = 33150 := by
  intro d
  induction d with
  | zero =>
      intro i hd hle
      exact ⟨i, by omega⟩
  | succ w ih =>
      intro i hd hle
      by_cases hdone : compPoint i = 33150
      · exact ⟨i, hdone⟩
      · have hlt : compPoint i ≤ 33149 := by omega
        have hnext : compPoint (i + 1) =
            compPoint i + (256 - stationsTouched (compPoint i)) := by
          rw [compPoint]
        have hband : compPoint i + 1 ≤ compPoint (i + 1) ∧
            compPoint (i + 1) ≤ 33150 := by
          rw [hnext, stationsTouched]
          omega
        exact ih (i + 1) (by omega) hband.2

theorem compPoint_reach : ∃ j : Nat, compPoint j = 33150 :=
  compPoint_reach_aux 33150 0 (by rw [compPoint]) (by rw [compPoint]; omega)

theorem station_state_33150 :
    add_all Histogram.empty (station_obs.take 33150) =
      ⟨33150, true, consolidatedBuckets 33150⟩ := by
  obtain ⟨j, hj⟩ := compPoint_reach
  have := orbit_state j
  rw [hj] at this
  exact this

theorem stationsTouched_33150 : stationsTouched 33150 = 255 := by
  rw [stationsTouched]

theorem station_buckets_split :
    station_buckets = consolidatedBuckets 33150 ++ singlesSeg 33150 33151 := by
  rw [station_buckets, consolidatedBuckets, singlesSeg, stationsTouched_33150]
  have h1 : (List.range 255).map
      (fun i => (⟨1000 * i, 0, stationCount i 33150⟩ : Bucket)) =
      (List.range 255).map (fun j => (⟨1000 * j, 0, 130⟩ : Bucket)) := by
    apply List.map_congr_left
    intro i hi
    have hi' : i < 255 := List.mem_range.1 hi
    rw [stationCount, show min 130 (33150 - 130 * i) = 130 from by omega]
  have h2 : (List.range (33151 - 33150)).map
      (fun q => Bucket.single (1000 * ((33150 + q) / 130))) =
      [(⟨255000, 0, 1⟩ : Bucket)] := by
    rw [show (33151 : Nat) - 33150 = 1 from rfl, show List.range 1 = [0] from rfl,
      List.map_cons, List.map_nil, Bucket.single,
      show (33150 + 0) / 130 = 255 from by omega]
  rw [h1, h2]

theorem consolidatedBuckets_33151 : consolidatedBuckets 33151 = station_buckets := by
  rw [consolidatedBuckets, station_buckets,
    show stationsTouched 33151 = 256 from by rw [stationsTouched]]
  rw [show (256 : Nat) = 255 + 1 from rfl, List.range_succ, List.map_append]
  have h1 : (List.range 255).map
      (fun i => (⟨1000 * i, 0, stationCount i 33151⟩ : Bucket)) =
      (List.range 255).map (fun j => (⟨1000 * j, 0, 130⟩ : Bucket)) := by
    apply List.map_congr_left
    intro i hi
    have hi' : i < 255 := List.mem_range.1 hi
    rw [stationCount, show min 130 (33151 - 130 * i) = 130 from by omega]
  have h2 : List.map
      (fun i => (⟨1000 * i, 0, stationCount i 33151⟩ : Bucket)) [255] =
      [(⟨255000, 0, 1⟩ : Bucket)] := by
    rw [List.map_cons, List.map_nil, stationCount,
      show min 130 (33151 - 130 * 255) = 1 from by omega,
      show 1000 * 255 = 255000 from by omega]
  rw [h1, h2]

theorem station_hist_compact_eval :
    station_hist.compact = ⟨33151, true, station_buckets⟩ := by
  rw [show station_hist = ⟨33151, false, station_buckets⟩ from rfl]
  conv_lhs => rw [station_buckets_split]
  rw [station_compact 33150 33151 (by omega) (le_refl _) (by omega),
    consolidatedBuckets_33151]

theorem station_trace_eq :
    add_all Histogram.empty station_obs = station_hist.compact := by
  have hlen : station_obs.length = 33151 := by
    rw [station_obs]
    simp
  have htake : station_obs.take 33151 = station_obs := by
    rw [← hlen, List.take_length]
  rw [← htake, show (33151 : Nat) = 33150 + 1 from rfl,
    add_all_take_succ 33150 (by omega), station_state_33150]
  rw [show (⟨33150, true, consolidatedBuckets 33150⟩ : Histogram) =
      ⟨33150, true, consolidatedBuckets 33150 ++ singlesSeg 33150 33150⟩ from by
    rw [singlesSeg]
    simp]
  rw [station_add_trigger true 33150 33150 (le_refl _)
    (by rw [stationsTouched_33150]) (by omega)]
  rw [station_hist_compact_eval, consolidatedBuckets_33151]

set_option maxRecDepth 400000 in
/-- C8: evaluation and reachability of `compact_buckets` at the
pre-compaction state `station_hist` (255 disjoint buckets of 130 equal
observations and one trailing single-observation bucket, 33151
observations).  Running the embedded model on the concrete trace
`station_obs` — 130 copies of `1000*j` for each station `j = 0..254` in
order, then one observation `255000` — makes the final `add_observation`
build exactly `station_hist` and compact it.  The state satisfies the
histogram invariant and holds exactly `max_buckets` buckets, yet compaction
merges nothing — every left neighbor already holds
`target_bucket_size = 130` observations and no ranges overlap — so the
result keeps all 256 buckets unchanged, contradicting the claimed (and
asserted) strict bound `< 256`. -/
theorem c8_code_evaluation :
    add_all Histogram.empty station_obs = station_hist.compact ∧
      Histogram.invariant station_hist ∧
      station_hist.compacted = false ∧
      station_hist.buckets.length = 256 ∧
      station_hist.compact = ⟨33151, true, station_buckets⟩ ∧
      (station_hist.compact).buckets.length = 256 := by
  refine ⟨station_trace_eq, by decide, rfl, by decide, station_hist_compact_eval, ?_⟩
  rw [station_hist_compact_eval]
  decide

end Gioppler
